import Mathlib

/-!
Verification of the fuzzy string/file scoring engine from `vs/base/common/scorer.ts`
(`score`, `scoreFile`, `compareFilesByScore`).

Strings are embedded as Lean `String`s (lists of characters); the JavaScript
numeric score is embedded as `Int`; the optional mutable cache object is embedded
as an explicit association list threaded through `scoreC`.  Helper functions that
`scorer.ts` imports from modules outside the provided sources
(`isEqual` from `paths.ts`, `matchesPrefix` and `createMatches` from `filters.ts`,
`compareAnything` from `comparers.ts`) are modelled from the specification text and
marked as such in their doc comments.
-/

namespace Scorer

/-- `Score` from scorer.ts: a numeric score paired with the matched target indices. -/
abbrev Score := Int × List Nat

/-- `NO_SCORE` sentinel from scorer.ts. -/
def NO_SCORE : Score := (0, [])

/-- `wordPathBoundary` from scorer.ts. -/
def wordPathBoundary : List Char := ['-', '_', ' ', '/', '\\', '.']

/-- `isUpper` from scorer.ts: `65 <= code && code <= 90`. -/
def isUpper (code : Nat) : Bool := 65 ≤ code && code ≤ 90

/-- Scan of a character-list suffix for `c`, carrying the absolute index of the
suffix head. -/
def indexOfAux (c : Char) : List Char → Nat → Option Nat
  | [], _ => none
  | x :: xs, idx => if x = c then some idx else indexOfAux c xs (idx + 1)

/-- `String.prototype.indexOf(c, startAt)` restricted to a single character,
on the character list of the target: the first index `≥ startAt` holding `c`. -/
def indexOfFrom (tl : List Char) (c : Char) (startAt : Nat) : Option Nat :=
  indexOfAux c (tl.drop startAt) startAt

/-- The main `while` loop of `score` in scorer.ts.  `t` is the raw target,
`tl` its lowercased form; the query is supplied as a list of
(raw character, lowercased character) pairs; `qIdx`, `startAt`, `sc` and `pos`
are the loop variables `index`, `startAt`, `score` and `matchingPositions`.
On a failed character lookup the loop sets the score to 0 and aborts,
exactly as the `break` in the source. -/
def scoreLoop (t tl : List Char) : List (Char × Char) → Nat → Nat → Int → List Nat → Int × List Nat
  | [], _, _, sc, pos => (sc, pos)
  | (qc, qlc) :: rest, qIdx, startAt, sc, pos =>
    match indexOfFrom tl qlc startAt with
    | none => (0, pos)
    | some i =>
      let s1 := sc + 1
      let s2 := if startAt = i ∧ qIdx > 0 then s1 + 5 else s1
      let s3 := if t.getD i 'a' = qc then s2 + 1 else s2
      let s4 := if i = 0 then s3 + 8
                else if t.getD (i - 1) 'a' ∈ wordPathBoundary then s3 + 7
                else if isUpper (t.getD i 'a').toNat then s3 + 1
                else s3
      scoreLoop t tl rest (qIdx + 1) (i + 1) s4 (pos ++ [i])

/-- The body of `score` from scorer.ts after the early exits and the cache
lookup: run the loop and force the sentinel when the final score is not
positive. -/
def scoreBody (target query : String) : Score :=
  let t := target.data
  let tl := t.map Char.toLower
  let ql := query.data.map Char.toLower
  let r := scoreLoop t tl (query.data.zip ql) 0 0 0 []
  if r.1 > 0 then r else NO_SCORE

/-- `score(target, query)` from scorer.ts, without a cache. -/
def score (target query : String) : Score :=
  if target.isEmpty || query.isEmpty then NO_SCORE
  else if target.length < query.length then NO_SCORE
  else scoreBody target query

/-- The optional cache object of `score`, embedded as an association list from the
raw concatenation key `target ++ query` to the stored `Score`. -/
abbrev Cache := List (String × Score)

/-- JavaScript property lookup `cache[hash]` on the embedded cache. -/
def cacheLookup (k : String) : Cache → Option Score
  | [] => none
  | (k', v) :: rest => if k' = k then some v else cacheLookup k rest

/-- `score(target, query, cache)` from scorer.ts with a cache: early exits happen
before the lookup; a hit returns the stored value; a miss computes the score and
stores it (also for failed searches) under the key `target ++ query`. -/
def scoreC (target query : String) (cache : Cache) : Score × Cache :=
  if target.isEmpty || query.isEmpty then (NO_SCORE, cache)
  else if target.length < query.length then (NO_SCORE, cache)
  else
    let hash := target ++ query
    match cacheLookup hash cache with
    | some v => (v, cache)
    | none =>
      let res := scoreBody target query
      (res, (hash, res) :: cache)

/-- Greedy left-to-right case-insensitive subsequence search, stated from the
spec: find each query character in order at the first index `≥ startAt`,
returning the list of matched indices, or `none` when some character cannot be
found.  Used as the reference characterisation of a successful match. -/
def greedyPositions (tl : List Char) : List Char → Nat → Option (List Nat)
  | [], _ => some []
  | c :: rest, startAt =>
    match indexOfFrom tl c startAt with
    | none => none
    | some i => (greedyPositions tl rest (i + 1)).map (fun ps => i :: ps)

/-- The consecutive-run bonus stated by the spec: +5 when the matched index
immediately follows the previous match; no bonus on the first query character
(`prev = none`). -/
def consecBonus (i : Nat) : Option Nat → Int
  | some j => if i = j + 1 then 5 else 0
  | none => 0

@[simp] theorem consecBonus_none (i : Nat) : consecBonus i none = 0 := rfl

@[simp] theorem consecBonus_some (i j : Nat) :
    consecBonus i (some j) = if i = j + 1 then 5 else 0 := rfl

/-- The per-character bonus sum stated by the spec: +1 always, +5 for a match
adjacent to the previous one (not the first query character), +1 for a
case-identical match, and exactly one of +8 (index 0) / +7 (after a boundary
character) / +1 (uppercase target character). -/
def charBonus (t : List Char) (qc : Char) (i : Nat) (prev : Option Nat) : Int :=
  1 + consecBonus i prev
    + (if t.getD i 'a' = qc then (1 : Int) else 0)
    + (if i = 0 then (8 : Int)
       else if t.getD (i - 1) 'a' ∈ wordPathBoundary then 7
       else if isUpper (t.getD i 'a').toNat then 1
       else 0)

/-- Sum of `charBonus` over the matched query characters in order, carrying the
previously matched index. -/
def sumBonuses (t : List Char) : List Char → List Nat → Option Nat → Int
  | qc :: qs, i :: is, prev => charBonus t qc i prev + sumBonuses t qs is (some i)
  | _, _, _ => 0

/-- Lowercased character list of a string (the `toLowerCase` views in `score`). -/
def lowerChars (s : String) : List Char := s.data.map Char.toLower

theorem indexOfAux_some_bounds (c : Char) (l : List Char) :
    ∀ (idx i : Nat), indexOfAux c l idx = some i → idx ≤ i ∧ i < idx + l.length := by
  induction l with
  | nil => intro idx i h; simp [indexOfAux] at h
  | cons x xs ih =>
    intro idx i h
    simp only [indexOfAux] at h
    split at h
    · injection h with h'
      simp only [List.length_cons]
      omega
    · have := ih (idx + 1) i h
      simp only [List.length_cons]
      omega

theorem indexOfFrom_some_bounds (tl : List Char) (c : Char) (s i : Nat)
    (h : indexOfFrom tl c s = some i) : s ≤ i ∧ i < tl.length := by
  unfold indexOfFrom at h
  have hb := indexOfAux_some_bounds c (tl.drop s) s i h
  have hl : (tl.drop s).length = tl.length - s := List.length_drop s tl
  omega

theorem greedyPositions_spec (tl : List Char) (q : List Char) :
    ∀ (startAt : Nat) (ps : List Nat),
      greedyPositions tl q startAt = some ps →
      ps.length = q.length ∧ List.Pairwise (· < ·) ps ∧
        ∀ i ∈ ps, startAt ≤ i ∧ i < tl.length := by
  induction q with
  | nil =>
    intro startAt ps h
    simp [greedyPositions] at h
    subst h
    simp
  | cons c rest ih =>
    intro startAt ps h
    simp only [greedyPositions] at h
    split at h
    · simp at h
    · rename_i i hidx
      rcases Option.map_eq_some'.mp h with ⟨ps', hg, hcons⟩
      subst hcons
      have hb := indexOfFrom_some_bounds tl c startAt i hidx
      obtain ⟨hlen, hpw, hmem⟩ := ih (i + 1) ps' hg
      refine ⟨by simp [hlen], ?_, ?_⟩
      · exact List.Pairwise.cons (fun j hj => by have := (hmem j hj).1; omega) hpw
      · intro j hj
        rcases List.mem_cons.mp hj with rfl | hj'
        · exact ⟨hb.1, hb.2⟩
        · have := hmem j hj'
          omega

theorem scoreLoop_greedy_none (t tl : List Char) (qp : List (Char × Char)) :
    ∀ (qIdx startAt : Nat) (sc : Int) (pos : List Nat),
      greedyPositions tl (qp.map Prod.snd) startAt = none →
      (scoreLoop t tl qp qIdx startAt sc pos).1 = 0 := by
  induction qp with
  | nil =>
    intro qIdx startAt sc pos h
    simp [greedyPositions] at h
  | cons p rest ih =>
    obtain ⟨qc, qlc⟩ := p
    intro qIdx startAt sc pos h
    simp only [List.map_cons, greedyPositions] at h
    simp only [scoreLoop]
    split at h
    · simp
    · rename_i i hidx
      rw [Option.map_eq_none'] at h
      exact ih (qIdx + 1) (i + 1) _ _ h

theorem scoreLoop_greedy_some (t tl : List Char) (qp : List (Char × Char)) :
    ∀ (ps : List Nat) (qIdx startAt : Nat) (sc : Int) (pos : List Nat) (prev : Option Nat),
      greedyPositions tl (qp.map Prod.snd) startAt = some ps →
      ((qIdx = 0 ∧ prev = none) ∨ (0 < qIdx ∧ ∃ j, prev = some j ∧ startAt = j + 1)) →
      scoreLoop t tl qp qIdx startAt sc pos =
        (sc + sumBonuses t (qp.map Prod.fst) ps prev, pos ++ ps) := by
  induction qp with
  | nil =>
    intro ps qIdx startAt sc pos prev h _
    simp [greedyPositions] at h
    subst h
    simp [scoreLoop, sumBonuses]
  | cons p rest ih =>
    obtain ⟨qc, qlc⟩ := p
    intro ps qIdx startAt sc pos prev h hinv
    simp only [List.map_cons, greedyPositions] at h
    split at h
    · simp at h
    · rename_i i hidx
      rcases Option.map_eq_some'.mp h with ⟨ps', hg, hcons⟩
      subst hcons
      simp only [scoreLoop, hidx]
      rw [ih ps' (qIdx + 1) (i + 1) _ _ (some i) hg (Or.inr ⟨by omega, i, rfl, rfl⟩)]
      simp only [List.map_cons, sumBonuses, Prod.mk.injEq]
      constructor
      · rcases hinv with ⟨h0, hnone⟩ | ⟨hpos, j, hprev, hstart⟩
        · subst h0; subst hnone
          simp only [charBonus, consecBonus_none]
          split_ifs <;> omega
        · subst hprev; subst hstart
          simp only [charBonus, consecBonus_some]
          split_ifs <;> omega
      · simp

theorem charBonus_ge_one (t : List Char) (qc : Char) (i : Nat) (prev : Option Nat) :
    1 ≤ charBonus t qc i prev := by
  cases prev <;>
    simp only [charBonus, consecBonus_none, consecBonus_some] <;>
    split_ifs <;> omega

theorem charBonus_le (t : List Char) (qc : Char) (i : Nat) (prev : Option Nat) :
    charBonus t qc i prev ≤ 14 := by
  cases prev <;>
    simp only [charBonus, consecBonus_none, consecBonus_some] <;>
    split_ifs <;> omega

theorem sumBonuses_ge (t : List Char) (qs : List Char) :
    ∀ (ps : List Nat) (prev : Option Nat),
      ps.length = qs.length → (qs.length : Int) ≤ sumBonuses t qs ps prev := by
  induction qs with
  | nil => intro ps prev _; simp [sumBonuses]
  | cons qc rest ih =>
    intro ps prev hlen
    cases ps with
    | nil => simp at hlen
    | cons i is =>
      simp only [sumBonuses]
      have h1 := charBonus_ge_one t qc i prev
      have h2 := ih is (some i) (by simpa using hlen)
      simp only [List.length_cons]
      push_cast
      omega

theorem sumBonuses_le (t : List Char) (qs : List Char) :
    ∀ (ps : List Nat) (prev : Option Nat),
      sumBonuses t qs ps prev ≤ 14 * (qs.length : Int) := by
  induction qs with
  | nil => intro ps prev; simp [sumBonuses]
  | cons qc rest ih =>
    intro ps prev
    cases ps with
    | nil => simp only [sumBonuses, List.length_cons]; push_cast; omega
    | cons i is =>
      simp only [sumBonuses]
      have h1 := charBonus_le t qc i prev
      have h2 := ih is (some i)
      simp only [List.length_cons]
      push_cast
      omega

theorem zip_lower_snd (q : String) :
    (q.data.zip (q.data.map Char.toLower)).map Prod.snd = lowerChars q := by
  unfold lowerChars
  exact List.map_snd_zip _ _ (by simp)

theorem zip_lower_fst (q : String) :
    (q.data.zip (q.data.map Char.toLower)).map Prod.fst = q.data := by
  exact List.map_fst_zip _ _ (by simp)

theorem scoreBody_greedy_some (target query : String) (ps : List Nat)
    (h : greedyPositions (lowerChars target) (lowerChars query) 0 = some ps)
    (hq : query.data ≠ []) :
    scoreBody target query = (sumBonuses target.data query.data ps none, ps) := by
  have hsnd := zip_lower_snd query
  have hloop := scoreLoop_greedy_some target.data (target.data.map Char.toLower)
      (query.data.zip (query.data.map Char.toLower)) ps 0 0 0 []
      none (by rw [hsnd]; exact h) (Or.inl ⟨rfl, rfl⟩)
  rw [zip_lower_fst] at hloop
  have hlen : ps.length = (lowerChars query).length :=
    (greedyPositions_spec _ _ _ _ h).1
  have hpos : (0 : Int) < sumBonuses target.data query.data ps none := by
    have hge := sumBonuses_ge target.data query.data ps none
      (by simpa [lowerChars] using hlen)
    have h0 : query.data.length ≠ 0 := fun hc => hq (List.eq_nil_of_length_eq_zero hc)
    have h1 : (1 : Int) ≤ (query.data.length : Int) := by
      omega
    omega
  simp only [scoreBody]
  rw [hloop]
  simp only [zero_add, List.nil_append]
  rw [if_pos hpos]

theorem scoreBody_greedy_none (target query : String)
    (h : greedyPositions (lowerChars target) (lowerChars query) 0 = none) :
    scoreBody target query = NO_SCORE := by
  have hsnd := zip_lower_snd query
  have hloop := scoreLoop_greedy_none target.data (target.data.map Char.toLower)
      (query.data.zip (query.data.map Char.toLower)) 0 0 0 []
      (by rw [hsnd]; exact h)
  simp only [scoreBody]
  rw [if_neg (by omega)]

theorem isEmpty_iff_data (s : String) : s.isEmpty = true ↔ s.data = [] := by
  rw [show (s.isEmpty = true) ↔ s.isEmpty from Iff.rfl, String.isEmpty_iff]
  constructor
  · rintro rfl; rfl
  · intro h
    cases s
    simp_all

theorem length_data (s : String) : s.length = s.data.length := rfl

theorem score_eq_body (target query : String)
    (h1 : ¬ target.isEmpty = true) (h2 : ¬ query.isEmpty = true)
    (h3 : ¬ target.length < query.length) :
    score target query = scoreBody target query := by
  unfold score
  rw [if_neg (by simp [h1, h2]), if_neg h3]

theorem sumBonuses_pos (target query : String) (ps : List Nat)
    (h : greedyPositions (lowerChars target) (lowerChars query) 0 = some ps)
    (hq : query.data ≠ []) : 0 < sumBonuses target.data query.data ps none := by
  have hlen : ps.length = (lowerChars query).length :=
    (greedyPositions_spec _ _ _ _ h).1
  have hge := sumBonuses_ge target.data query.data ps none
    (by simpa [lowerChars] using hlen)
  have h0 : query.data.length ≠ 0 := fun hc => hq (List.eq_nil_of_length_eq_zero hc)
  omega

theorem pairwise_lt_length_le (ps : List Nat) (n : Nat)
    (hpw : List.Pairwise (· < ·) ps) (hb : ∀ i ∈ ps, i < n) : ps.length ≤ n := by
  have hnd : ps.Nodup := hpw.imp (fun h => Nat.ne_of_lt h)
  have hsub : ps ⊆ List.range n := fun i hi => List.mem_range.mpr (hb i hi)
  have hle := (hnd.subperm hsub).length_le
  simpa using hle

theorem greedy_some_len_le (target query : String) (ps : List Nat)
    (h : greedyPositions (lowerChars target) (lowerChars query) 0 = some ps) :
    query.length ≤ target.length := by
  obtain ⟨hlen, hpw, hmem⟩ := greedyPositions_spec _ _ _ _ h
  have hb : ∀ i ∈ ps, i < target.length := by
    intro i hi
    have := (hmem i hi).2
    simpa [lowerChars] using this
  have := pairwise_lt_length_le ps target.length hpw hb
  have hq : (lowerChars query).length = query.length := by
    simp [lowerChars]
  omega

/-- C1: the sentinel `(0, [])` is returned exactly when the query is not found
as a case-insensitive subsequence of the target by the greedy left-to-right
search, including the empty-target, empty-query and target-shorter-than-query
cases; moreover the score component is `0` exactly when the whole result is the
sentinel, so a failed match never returns partial positions. -/
theorem C1_sentinel_iff_no_greedy_match (target query : String) :
    (score target query = NO_SCORE ↔
      target.isEmpty = true ∨ query.isEmpty = true ∨ target.length < query.length ∨
        greedyPositions (lowerChars target) (lowerChars query) 0 = none) ∧
    ((score target query).1 = 0 ↔ score target query = NO_SCORE) := by
  by_cases h1 : target.isEmpty = true
  · have hs : score target query = NO_SCORE := by
      unfold score
      rw [if_pos (by simp [h1])]
    rw [hs]
    exact ⟨⟨fun _ => Or.inl h1, fun _ => rfl⟩, by simp [NO_SCORE]⟩
  · by_cases h2 : query.isEmpty = true
    · have hs : score target query = NO_SCORE := by
        unfold score
        rw [if_pos (by simp [h2])]
      rw [hs]
      exact ⟨⟨fun _ => Or.inr (Or.inl h2), fun _ => rfl⟩, by simp [NO_SCORE]⟩
    · by_cases h3 : target.length < query.length
      · have hs : score target query = NO_SCORE := by
          unfold score
          rw [if_neg (by simp [h1, h2]), if_pos h3]
        rw [hs]
        exact ⟨⟨fun _ => Or.inr (Or.inr (Or.inl h3)), fun _ => rfl⟩, by simp [NO_SCORE]⟩
      · have hq : query.data ≠ [] := fun hc => h2 ((isEmpty_iff_data query).mpr hc)
        cases hg : greedyPositions (lowerChars target) (lowerChars query) 0 with
        | none =>
          have hs : score target query = NO_SCORE := by
            rw [score_eq_body target query h1 h2 h3]
            exact scoreBody_greedy_none target query hg
          rw [hs]
          exact ⟨⟨fun _ => Or.inr (Or.inr (Or.inr rfl)), fun _ => rfl⟩, by simp [NO_SCORE]⟩
        | some ps =>
          have hs : score target query = (sumBonuses target.data query.data ps none, ps) := by
            rw [score_eq_body target query h1 h2 h3]
            exact scoreBody_greedy_some target query ps hg hq
          have hpos := sumBonuses_pos target query ps hg hq
          rw [hs]
          constructor
          · constructor
            · intro hc
              have : sumBonuses target.data query.data ps none = 0 := by
                have := congrArg Prod.fst hc
                simpa [NO_SCORE] using this
              omega
            · rintro (h | h | h | h)
              · exact absurd h h1
              · exact absurd h h2
              · exact absurd h h3
              · simp at h
          · constructor
            · intro hc; simp at hc; omega
            · intro hc
              have := congrArg Prod.fst hc
              simp [NO_SCORE] at this
              omega

/-- C2: whenever the greedy case-insensitive subsequence search succeeds with
position list `ps`, the returned score is the sum over the matched query
characters of the per-character bonuses: +1 per character, +5 for a match
adjacent to the previous one (never on the first query character), +1 for a
case-identical character, and exactly one of +8 (match at index 0), +7 (match
right after a `- _ space / \ .` boundary character), +1 (uppercase ASCII
target character), in that priority order. -/
theorem C2_score_is_bonus_sum (target query : String) (ps : List Nat)
    (h : greedyPositions (lowerChars target) (lowerChars query) 0 = some ps) :
    (score target query).1 = sumBonuses target.data query.data ps none := by
  by_cases hq : query.data = []
  · have hps : ps = [] := by
      have hlen := (greedyPositions_spec _ _ _ _ h).1
      rw [lowerChars, hq] at hlen
      simpa using hlen
    subst hps
    have hqe : query.isEmpty = true := (isEmpty_iff_data query).mpr hq
    rw [hq]
    unfold score
    rw [if_pos (by simp [hqe])]
    simp [NO_SCORE, sumBonuses]
  · have h2 : ¬ query.isEmpty = true := fun hc => hq ((isEmpty_iff_data query).mp hc)
    have h3 : ¬ target.length < query.length := by
      have := greedy_some_len_le target query ps h
      omega
    have h1 : ¬ target.isEmpty = true := by
      intro hc
      have hdata := (isEmpty_iff_data target).mp hc
      have hql : 1 ≤ query.length := by
        have ha : query.data.length ≠ 0 := fun hz => hq (List.eq_nil_of_length_eq_zero hz)
        have hl := length_data query
        omega
      have : target.length = 0 := by rw [length_data target, hdata]; rfl
      omega
    rw [score_eq_body target query h1 h2 h3,
      scoreBody_greedy_some target query ps h hq]

/-- C9: every returned `Score` has a non-negative score; a zero score comes with
an empty position list, and a positive score comes with a strictly ascending
position list containing exactly one valid target index per query character. -/
theorem C9_score_invariants (target query : String) :
    0 ≤ (score target query).1 ∧
      (((score target query).1 = 0 ∧ (score target query).2 = []) ∨
        (0 < (score target query).1 ∧
          List.Pairwise (· < ·) (score target query).2 ∧
          (score target query).2.length = query.length ∧
          (score target query).2.all (fun i => decide (i < target.length)) = true)) := by
  by_cases h1 : target.isEmpty = true
  · unfold score
    rw [if_pos (by simp [h1])]
    simp [NO_SCORE]
  · by_cases h2 : query.isEmpty = true
    · unfold score
      rw [if_pos (by simp [h2])]
      simp [NO_SCORE]
    · by_cases h3 : target.length < query.length
      · unfold score
        rw [if_neg (by simp [h1, h2]), if_pos h3]
        simp [NO_SCORE]
      · have hq : query.data ≠ [] := fun hc => h2 ((isEmpty_iff_data query).mpr hc)
        cases hg : greedyPositions (lowerChars target) (lowerChars query) 0 with
        | none =>
          have hs : score target query = NO_SCORE := by
            rw [score_eq_body target query h1 h2 h3]
            exact scoreBody_greedy_none target query hg
          rw [hs]
          simp [NO_SCORE]
        | some ps =>
          have hs : score target query = (sumBonuses target.data query.data ps none, ps) := by
            rw [score_eq_body target query h1 h2 h3]
            exact scoreBody_greedy_some target query ps hg hq
          have hpos := sumBonuses_pos target query ps hg hq
          obtain ⟨hlen, hpw, hmem⟩ := greedyPositions_spec _ _ _ _ hg
          rw [hs]
          refine ⟨by simpa using le_of_lt hpos, Or.inr ⟨hpos, hpw, ?_, ?_⟩⟩
          · have hq2 : (lowerChars query).length = query.length := by
              simp [lowerChars]
            simpa [hq2] using hlen
          · simp only [List.all_eq_true, decide_eq_true_eq]
            intro i hi
            have := (hmem i hi).2
            simpa [lowerChars] using this

/-- Witness for C2 at the test-suite input: target `HeLlo-World`, query `hw`,
greedy positions `[0, 6]`. -/
theorem C2_score_is_bonus_sum_witness :
    greedyPositions (lowerChars "HeLlo-World") (lowerChars "hw") 0 = some [0, 6] ∧
    (score "HeLlo-World" "hw").1 = sumBonuses "HeLlo-World".data "hw".data [0, 6] none :=
  ⟨by decide, C2_score_is_bonus_sum "HeLlo-World" "hw" [0, 6] (by decide)⟩

theorem score_early (t q : String)
    (h : (t.isEmpty || q.isEmpty) = true ∨ t.length < q.length) :
    score t q = NO_SCORE := by
  unfold score
  rcases h with h | h
  · rw [if_pos h]
  · by_cases h1 : (t.isEmpty || q.isEmpty) = true
    · rw [if_pos h1]
    · rw [if_neg h1, if_pos h]

theorem scoreC_early (t q : String) (c : Cache)
    (h : (t.isEmpty || q.isEmpty) = true ∨ t.length < q.length) :
    scoreC t q c = (NO_SCORE, c) := by
  simp only [scoreC]
  rcases h with h | h
  · rw [if_pos h]
  · by_cases h1 : (t.isEmpty || q.isEmpty) = true
    · rw [if_pos h1]
    · rw [if_neg h1, if_pos h]

theorem scoreC_hit (t q : String) (c : Cache) (v : Score)
    (h1 : ¬ (t.isEmpty || q.isEmpty) = true) (h2 : ¬ t.length < q.length)
    (h : cacheLookup (t ++ q) c = some v) :
    scoreC t q c = (v, c) := by
  simp only [scoreC]
  rw [if_neg h1, if_neg h2, h]

theorem scoreC_miss (t q : String) (c : Cache)
    (h1 : ¬ (t.isEmpty || q.isEmpty) = true) (h2 : ¬ t.length < q.length)
    (h : cacheLookup (t ++ q) c = none) :
    scoreC t q c = (scoreBody t q, (t ++ q, scoreBody t q) :: c) := by
  simp only [scoreC]
  rw [if_neg h1, if_neg h2, h]

/-- C7 (amended): a cache hit returns the stored value verbatim, and
`score(target, query, cache)` returns the same result as the cache-free
`score(target, query)` whenever the entry stored under the concatenation key
`target ++ query` — if any — already equals that score; in particular for any
cache whose prior writes involved no key collision with `target ++ query`.
With a collision (distinct pair, same concatenation) the stored value of the
other pair is returned instead, as the counterexample shows. -/
theorem C7_cache_transparent_no_collision (target query : String) (cache : Cache)
    (h : cacheLookup (target ++ query) cache = none ∨
         cacheLookup (target ++ query) cache = some (score target query)) :
    (scoreC target query cache).1 = score target query := by
  by_cases h1 : (target.isEmpty || query.isEmpty) = true
  · rw [scoreC_early _ _ _ (Or.inl h1), score_early _ _ (Or.inl h1)]
  · by_cases h2 : target.length < query.length
    · rw [scoreC_early _ _ _ (Or.inr h2), score_early _ _ (Or.inr h2)]
    · have hbody : score target query = scoreBody target query := by
        unfold score
        rw [if_neg h1, if_neg h2]
      rcases h with h | h
      · rw [scoreC_miss target query cache h1 h2 h, hbody]
      · rw [scoreC_hit target query cache _ h1 h2 h]

/-- Witness for C7 (amended) at a concrete fresh-key input. -/
theorem C7_cache_transparent_no_collision_witness :
    (cacheLookup ("ab" ++ "c") ([] : Cache) = none ∨
     cacheLookup ("ab" ++ "c") ([] : Cache) = some (score "ab" "c")) ∧
    (scoreC "ab" "c" []).1 = score "ab" "c" :=
  ⟨Or.inl rfl, C7_cache_transparent_no_collision "ab" "c" [] (Or.inl rfl)⟩

/-- C7 counterexample: the cache containing only the entry produced by the prior
call `score("ab", "ab", cache)` makes `score("aba", "b", cache)` return the
colliding stored value `(17, [0, 1])` instead of its true score `(2, [1])` —
so the claim as stated is false for caches built by prior calls. -/
theorem C7_counterexample :
    (scoreC "aba" "b" (scoreC "ab" "ab" []).2).1 ≠ score "aba" "b" := by decide

/-- C8 (amended): calling `score(target, query, cache)` twice with the same
cache yields identical results and the second call leaves the cache unchanged;
a call grows the cache by exactly one entry when it passes the early exits and
the key `target ++ query` is absent, and leaves it unchanged otherwise — so the
cache gains exactly one entry per distinct key among non-early-exit calls, not
one per distinct `(target, query)` pair. -/
theorem C8_cache_idempotent_single_write (target query : String) (cache : Cache) :
    (scoreC target query (scoreC target query cache).2).1 = (scoreC target query cache).1 ∧
    (scoreC target query (scoreC target query cache).2).2 = (scoreC target query cache).2 ∧
    (scoreC target query cache).2.length =
      (if (¬ (target.isEmpty || query.isEmpty) = true ∧ ¬ target.length < query.length) ∧
          cacheLookup (target ++ query) cache = none
       then cache.length + 1 else cache.length) := by
  by_cases h1 : (target.isEmpty || query.isEmpty) = true
  · rw [scoreC_early _ _ cache (Or.inl h1)]
    rw [scoreC_early _ _ cache (Or.inl h1)]
    refine ⟨rfl, rfl, ?_⟩
    rw [if_neg (fun hc => hc.1.1 h1)]
  · by_cases h2 : target.length < query.length
    · rw [scoreC_early _ _ cache (Or.inr h2)]
      rw [scoreC_early _ _ cache (Or.inr h2)]
      refine ⟨rfl, rfl, ?_⟩
      rw [if_neg (fun hc => hc.1.2 h2)]
    · cases hl : cacheLookup (target ++ query) cache with
      | some v =>
        rw [scoreC_hit target query cache v h1 h2 hl]
        rw [scoreC_hit target query cache v h1 h2 hl]
        refine ⟨rfl, rfl, ?_⟩
        rw [if_neg (fun hc => by simpa using hc.2)]
      | none =>
        rw [scoreC_miss target query cache h1 h2 hl]
        have hl2 : cacheLookup (target ++ query)
            ((target ++ query, scoreBody target query) :: cache) =
            some (scoreBody target query) := by
          simp [cacheLookup]
        rw [scoreC_hit target query _ _ h1 h2 hl2]
        refine ⟨rfl, rfl, ?_⟩
        rw [if_pos ⟨⟨h1, h2⟩, rfl⟩]
        rfl

/-- C8 counterexample: the distinct pairs `("ab", "cd")` and `("abc", "d")`
share the concatenation key `"abcd"`, so after both calls the cache holds one
entry, not one entry per distinct pair. -/
theorem C8_counterexample :
    ("ab", "cd") ≠ (("abc", "d") : String × String) ∧
    ((scoreC "abc" "d" (scoreC "ab" "cd" []).2).2).length = 1 := by
  constructor
  · decide
  · decide

/-- C10 (amended): a failed search past the early exits writes the sentinel
under the key `target ++ query` provided that key is not already present (a
pre-existing colliding entry is returned verbatim and nothing is written),
whereas the empty-input and target-shorter-than-query early exits return
before the cache lookup and leave the cache unchanged. -/
theorem C10_failed_search_cached (target query t2 q2 : String) (c c2 : Cache)
    (h1 : ¬ target.isEmpty = true) (h2 : ¬ query.isEmpty = true)
    (h3 : ¬ target.length < query.length)
    (h4 : greedyPositions (lowerChars target) (lowerChars query) 0 = none)
    (h5 : cacheLookup (target ++ query) c = none)
    (h6 : t2.isEmpty = true ∨ q2.isEmpty = true ∨ t2.length < q2.length) :
    cacheLookup (target ++ query) (scoreC target query c).2 = some NO_SCORE ∧
    (scoreC t2 q2 c2).2 = c2 := by
  constructor
  · have hb := scoreBody_greedy_none target query h4
    have hmiss := scoreC_miss target query c (by simp [h1, h2]) h3 h5
    rw [hmiss, hb]
    simp [cacheLookup]
  · have h7 : (t2.isEmpty || q2.isEmpty) = true ∨ t2.length < q2.length := by
      rcases h6 with h | h | h
      · exact Or.inl (by simp [h])
      · exact Or.inl (by simp [h])
      · exact Or.inr h
    rw [scoreC_early _ _ _ h7]

/-- Witness for C10 (amended): the failed pair `("ab", "cd")` on a fresh cache,
and the early-exit pair `("", "x")`. -/
theorem C10_failed_search_cached_witness :
    cacheLookup ("ab" ++ "cd") (scoreC "ab" "cd" []).2 = some NO_SCORE ∧
    (scoreC "" "x" ([] : Cache)).2 = [] :=
  C10_failed_search_cached "ab" "cd" "" "x" [] [] (by decide) (by decide)
    (by decide) (by decide) rfl (Or.inl (by decide))

/-- C10 counterexample: `("ba", "ab")` is a failed search past the early exits,
but with a cache holding the colliding entry written by the prior call
`score("baa", "b", cache)`, the call hits and the key keeps the non-sentinel
value `(10, [0])` — nothing is written. -/
theorem C10_counterexample :
    greedyPositions (lowerChars "ba") (lowerChars "ab") 0 = none ∧
    cacheLookup ("ba" ++ "ab") ((scoreC "ba" "ab" (scoreC "baa" "b" []).2).2) ≠
      some NO_SCORE := by
  constructor
  · decide
  · decide

/-- `IMatch` from filters.ts: a half-open range of target indices.  The source
field `end` is a Lean keyword and is embedded as `stop`. -/
structure IMatch where
  start : Nat
  stop : Nat
deriving DecidableEq, Repr

/-- `IFileScore` from scorer.ts: overall score with optional basename and path
match ranges. -/
structure IFileScore where
  score : Int
  basenameMatch : Option (List IMatch) := none
  pathMatch : Option (List IMatch) := none
deriving DecidableEq, Repr

/-- `NO_FILE_SCORE` from scorer.ts. -/
def NO_FILE_SCORE : IFileScore := { score := 0 }

/-- `PATH_IDENTITY_SCORE = 1 << 18` from scorer.ts. -/
def PATH_IDENTITY_SCORE : Int := 2 ^ 18

/-- `BASENAME_PREFIX_SCORE = 1 << 17` from scorer.ts. -/
def BASENAME_PREFIX_SCORE : Int := 2 ^ 17

/-- `BASENAME_SCORE_THRESHOLD = 1 << 16` from scorer.ts. -/
def BASENAME_SCORE_THRESHOLD : Int := 2 ^ 16

/-- Modelled from the spec: `isEqual(query, path, true)` from
vs/base/common/paths, which is not under src/ - case-insensitive path
equality. -/
def isEqualCI (a b : String) : Bool := lowerChars a == lowerChars b

/-- Modelled from the spec: `matchesPrefix(query, basename)` from
vs/base/common/filters, which is not under src/ - case-insensitive prefix
test returning the single match range `[0, len(query))` on success. -/
def matchesPrefix (query target : String) : Option (List IMatch) :=
  if (lowerChars query).isPrefixOf (lowerChars target) then some [⟨0, query.length⟩]
  else none

/-- Helper of `createMatches`: extend the current range while positions stay
adjacent, start a new range otherwise. -/
def createMatchesAux (cur : IMatch) : List Nat → List IMatch
  | [] => [cur]
  | i :: rest =>
    if i = cur.stop then createMatchesAux ⟨cur.start, i + 1⟩ rest
    else cur :: createMatchesAux ⟨i, i + 1⟩ rest

/-- Modelled from the spec: `createMatches` from vs/base/common/filters, which
is not under src/ - coalesce adjacent matched positions into half-open
ranges. -/
def createMatches : List Nat → List IMatch
  | [] => []
  | i :: rest => createMatchesAux ⟨i, i + 1⟩ rest

/-- `IFileAccessor` from scorer.ts: the two-projection capability record. -/
structure IFileAccessor (T : Type) where
  getBasename : T → String
  getPath : T → String

/-- `scoreFile(file, accessor, query)` from scorer.ts, without a cache: the
degenerate-input guards followed by the four tiers in priority order
(identity, basename prefix, basename subsequence, path subsequence). -/
def scoreFile {T : Type} (file : Option T) (accessor : IFileAccessor T)
    (query : String) : IFileScore :=
  match file with
  | none => NO_FILE_SCORE
  | some f =>
    let basename := accessor.getBasename f
    let path := accessor.getPath f
    if basename.isEmpty || path.isEmpty then NO_FILE_SCORE
    else if isEqualCI query path then
      { score := PATH_IDENTITY_SCORE,
        pathMatch := some [⟨0, path.length⟩],
        basenameMatch := some [⟨0, basename.length⟩] }
    else
      match matchesPrefix query basename with
      | some prefixBasenameMatch =>
        { score := BASENAME_PREFIX_SCORE, basenameMatch := some prefixBasenameMatch }
      | none =>
        let rb := score basename query
        if rb.1 ≠ 0 then
          { score := rb.1 + BASENAME_SCORE_THRESHOLD,
            basenameMatch := some (createMatches rb.2) }
        else
          let rp := score path query
          if rp.1 ≠ 0 then
            { score := rp.1, pathMatch := some (createMatches rp.2) }
          else NO_FILE_SCORE

/-- The tier cascade exactly as worded by claim C3 and spec section 4.2,
used as the reference definition that `scoreFile` is compared against. -/
def scoreFileSpec {T : Type} (file : Option T) (accessor : IFileAccessor T)
    (query : String) : IFileScore :=
  match file with
  | none => NO_FILE_SCORE
  | some f =>
    let basename := accessor.getBasename f
    let path := accessor.getPath f
    if basename.isEmpty || path.isEmpty then NO_FILE_SCORE
    else if isEqualCI query path then
      { score := PATH_IDENTITY_SCORE,
        basenameMatch := some [⟨0, basename.length⟩],
        pathMatch := some [⟨0, path.length⟩] }
    else if (lowerChars query).isPrefixOf (lowerChars basename) then
      { score := BASENAME_PREFIX_SCORE, basenameMatch := some [⟨0, query.length⟩] }
    else if (score basename query).1 ≠ 0 then
      { score := (score basename query).1 + BASENAME_SCORE_THRESHOLD,
        basenameMatch := some (createMatches (score basename query).2) }
    else if (score path query).1 ≠ 0 then
      { score := (score path query).1,
        pathMatch := some (createMatches (score path query).2) }
    else NO_FILE_SCORE

/-- C3: `scoreFile` behaves exactly as the four-tier cascade of the claim:
sentinel for an absent file or empty basename/path, `PATH_IDENTITY_SCORE` with
full-range matches on identity, `BASENAME_PREFIX_SCORE` with the single range
`[0, len(query))` on a case-insensitive basename prefix, basename subsequence
score plus `BASENAME_SCORE_THRESHOLD` with basename ranges when nonzero, raw
path subsequence score with path ranges when nonzero, and the sentinel
otherwise. -/
theorem C3_scoreFile_tiers {T : Type} (file : Option T) (accessor : IFileAccessor T)
    (query : String) : scoreFile file accessor query = scoreFileSpec file accessor query := by
  cases file with
  | none => rfl
  | some f =>
    by_cases hp : (lowerChars query).isPrefixOf (lowerChars (accessor.getBasename f)) = true
    · simp [scoreFile, scoreFileSpec, matchesPrefix, hp]
    · simp [scoreFile, scoreFileSpec, matchesPrefix, hp]

/-- Three-way lexicographic comparison of integer lists, the backbone of the
modelled string comparison and of the comparator sort key. -/
def listCmp : List Int → List Int → Int
  | [], [] => 0
  | [], _ :: _ => -1
  | _ :: _, [] => 1
  | x :: xs, y :: ys => if x < y then -1 else if y < x then 1 else listCmp xs ys

/-- Character codes of a string, as integers. -/
def strCodes (s : String) : List Int := s.data.map (fun c => (c.toNat : Int))

/-- Modelled from the spec: the sort key realising `compareAnything` from
vs/base/common/comparers, which is not under src/ - query-relevant
(case-insensitive prefix) strings first, then shorter strings, then
character-code order. -/
def anyKey (query s : String) : List Int :=
  (if (lowerChars query).isPrefixOf (lowerChars s) then 0 else 1) ::
    (s.length : Int) :: strCodes s

/-- Modelled from the spec: `compareAnything(a, b, query)` from
vs/base/common/comparers, which is not under src/. -/
def compareAnything (a b query : String) : Int :=
  listCmp (anyKey query a) (anyKey query b)

/-- `compareFilesByScore(fileA, fileB, accessor, query)` from scorer.ts,
without a cache.  The source's sequential early returns are embedded as a
nested conditional: each branch condition conjoins the source guard with the
negations implied by falling through the earlier returns. -/
def compareFilesByScore {T : Type} (fileA fileB : T) (accessor : IFileAccessor T)
    (query : String) : Int :=
  let scoreA := (scoreFile (some fileA) accessor query).score
  let scoreB := (scoreFile (some fileB) accessor query).score
  let basenameA := accessor.getBasename fileA
  let basenameB := accessor.getBasename fileB
  let pathA := accessor.getPath fileA
  let pathB := accessor.getPath fileB
  if (scoreA = PATH_IDENTITY_SCORE ∨ scoreB = PATH_IDENTITY_SCORE) ∧ scoreA ≠ scoreB then
    if scoreA = PATH_IDENTITY_SCORE then -1 else 1
  else if (scoreA = BASENAME_PREFIX_SCORE ∨ scoreB = BASENAME_PREFIX_SCORE) ∧
      scoreA ≠ scoreB then
    if scoreA = BASENAME_PREFIX_SCORE then -1 else 1
  else if (scoreA = BASENAME_PREFIX_SCORE ∨ scoreB = BASENAME_PREFIX_SCORE) ∧
      basenameA.length ≠ basenameB.length then
    (basenameA.length : Int) - (basenameB.length : Int)
  else if (scoreA > BASENAME_SCORE_THRESHOLD ∨ scoreB > BASENAME_SCORE_THRESHOLD) ∧
      scoreB < BASENAME_SCORE_THRESHOLD then -1
  else if (scoreA > BASENAME_SCORE_THRESHOLD ∨ scoreB > BASENAME_SCORE_THRESHOLD) ∧
      scoreA < BASENAME_SCORE_THRESHOLD then 1
  else if scoreA ≠ scoreB then
    if scoreA > scoreB then -1 else 1
  else if basenameA.length ≠ basenameB.length then
    (basenameA.length : Int) - (basenameB.length : Int)
  else if pathA.length ≠ pathB.length then
    (pathA.length : Int) - (pathB.length : Int)
  else if basenameA ≠ basenameB then compareAnything basenameA basenameB query
  else compareAnything pathA pathB query

/-- The tie-break cascade exactly as worded by claim C4, producing the
canonical values -1, 0, 1: identity side wins; prefix side wins, both prefixes
broken by shorter basename; above-threshold side beats below-threshold side;
higher raw score wins; then shorter basename, shorter path, the
`compareAnything` comparison of basenames against the query, and the same
comparison of full paths. -/
def compareFilesByScoreSpec {T : Type} (fileA fileB : T) (accessor : IFileAccessor T)
    (query : String) : Int :=
  let sA := (scoreFile (some fileA) accessor query).score
  let sB := (scoreFile (some fileB) accessor query).score
  let bnA := accessor.getBasename fileA
  let bnB := accessor.getBasename fileB
  let pA := accessor.getPath fileA
  let pB := accessor.getPath fileB
  if sA = PATH_IDENTITY_SCORE ∧ sB ≠ PATH_IDENTITY_SCORE then -1
  else if sB = PATH_IDENTITY_SCORE ∧ sA ≠ PATH_IDENTITY_SCORE then 1
  else if sA = BASENAME_PREFIX_SCORE ∧ sB ≠ BASENAME_PREFIX_SCORE then -1
  else if sB = BASENAME_PREFIX_SCORE ∧ sA ≠ BASENAME_PREFIX_SCORE then 1
  else if sA = BASENAME_PREFIX_SCORE ∧ sB = BASENAME_PREFIX_SCORE ∧
      bnA.length < bnB.length then -1
  else if sA = BASENAME_PREFIX_SCORE ∧ sB = BASENAME_PREFIX_SCORE ∧
      bnB.length < bnA.length then 1
  else if sA > BASENAME_SCORE_THRESHOLD ∧ sB < BASENAME_SCORE_THRESHOLD then -1
  else if sB > BASENAME_SCORE_THRESHOLD ∧ sA < BASENAME_SCORE_THRESHOLD then 1
  else if sB < sA then -1
  else if sA < sB then 1
  else if bnA.length < bnB.length then -1
  else if bnB.length < bnA.length then 1
  else if pA.length < pB.length then -1
  else if pB.length < pA.length then 1
  else if compareAnything bnA bnB query ≠ 0 then compareAnything bnA bnB query
  else compareAnything pA pB query

/-- The lexicographic sort key that the comparator's cascade realises, used to
prove its ordering properties.  Each component is smaller for the file that
should sort first. -/
def fileKey {T : Type} (accessor : IFileAccessor T) (query : String) (f : T) : List Int :=
  let s := (scoreFile (some f) accessor query).score
  let bn := accessor.getBasename f
  let p := accessor.getPath f
  (if s = PATH_IDENTITY_SCORE then 0 else 1) ::
  (if s = BASENAME_PREFIX_SCORE then 0 else 1) ::
  (if s = BASENAME_PREFIX_SCORE then (bn.length : Int) else 0) ::
  (if s > BASENAME_SCORE_THRESHOLD then 0 else 1) ::
  (-s) ::
  (bn.length : Int) ::
  (p.length : Int) ::
  (if (lowerChars query).isPrefixOf (lowerChars bn) then (0 : Int) else 1) ::
  (strCodes bn ++
    (if (lowerChars query).isPrefixOf (lowerChars p) then (0 : Int) else 1) ::
      strCodes p)

theorem listCmp_refl : ∀ (xs : List Int), listCmp xs xs = 0
  | [] => rfl
  | x :: xs => by
    simp only [listCmp, lt_self_iff_false, if_false]
    exact listCmp_refl xs

theorem listCmp_eq_zero : ∀ (xs ys : List Int), listCmp xs ys = 0 → xs = ys
  | [], [], _ => rfl
  | [], _ :: _, h => by simp [listCmp] at h
  | _ :: _, [], h => by simp [listCmp] at h
  | x :: xs, y :: ys, h => by
    simp only [listCmp] at h
    split_ifs at h with h1 h2
    all_goals first
      | omega
      | (have hxy : x = y := by omega
         rw [hxy, listCmp_eq_zero xs ys h])

theorem listCmp_neg : ∀ (xs ys : List Int), listCmp ys xs = -listCmp xs ys
  | [], [] => rfl
  | [], _ :: _ => rfl
  | _ :: _, [] => rfl
  | x :: xs, y :: ys => by
    simp only [listCmp]
    split_ifs <;> first | omega | exact listCmp_neg xs ys

theorem listCmp_mem : ∀ (xs ys : List Int),
    listCmp xs ys = -1 ∨ listCmp xs ys = 0 ∨ listCmp xs ys = 1
  | [], [] => Or.inr (Or.inl rfl)
  | [], _ :: _ => Or.inl rfl
  | _ :: _, [] => Or.inr (Or.inr rfl)
  | x :: xs, y :: ys => by
    simp only [listCmp]
    split_ifs
    · exact Or.inl rfl
    · exact Or.inr (Or.inr rfl)
    · exact listCmp_mem xs ys

theorem listCmp_trans : ∀ (xs ys zs : List Int),
    listCmp xs ys ≤ 0 → listCmp ys zs ≤ 0 → listCmp xs zs ≤ 0
  | [], ys, zs, _, _ => by cases zs <;> simp [listCmp]
  | _ :: _, [], _, h1, _ => by simp [listCmp] at h1
  | _ :: _, _ :: _, [], _, h2 => by simp [listCmp] at h2
  | x :: xs, y :: ys, z :: zs, h1, h2 => by
    simp only [listCmp] at h1 h2 ⊢
    split_ifs at h1 h2 ⊢ <;> try omega
    all_goals exact listCmp_trans xs ys zs h1 h2

theorem sign_listCmp (xs ys : List Int) : Int.sign (listCmp xs ys) = listCmp xs ys := by
  rcases listCmp_mem xs ys with h | h | h <;> rw [h] <;> rfl

theorem listCmp_cons_lt {x y : Int} (h : x < y) (xs ys : List Int) :
    listCmp (x :: xs) (y :: ys) = -1 := by
  simp [listCmp, h]

theorem listCmp_cons_gt {x y : Int} (h : y < x) (xs ys : List Int) :
    listCmp (x :: xs) (y :: ys) = 1 := by
  simp only [listCmp]
  rw [if_neg (by omega), if_pos h]

theorem listCmp_cons_eq (x : Int) (xs ys : List Int) :
    listCmp (x :: xs) (x :: ys) = listCmp xs ys := by
  simp [listCmp]

theorem listCmp_append (xs : List Int) : ∀ (ys us vs : List Int),
    xs.length = ys.length →
    listCmp (xs ++ us) (ys ++ vs) =
      (if listCmp xs ys = 0 then listCmp us vs else listCmp xs ys) := by
  induction xs with
  | nil =>
    intro ys us vs h
    cases ys with
    | nil => simp [listCmp]
    | cons y ys => simp at h
  | cons x xs ih =>
    intro ys us vs h
    cases ys with
    | nil => simp at h
    | cons y ys =>
      by_cases hxy : x < y
      · simp [listCmp, hxy]
      · by_cases hyx : y < x
        · simp only [List.cons_append, listCmp]
          rw [if_neg hxy, if_pos hyx, if_neg hxy, if_pos hyx]
          simp
        · simp only [List.cons_append, listCmp]
          rw [if_neg hxy, if_neg hyx, if_neg hxy, if_neg hyx]
          exact ih ys us vs (by simpa using h)

theorem string_eq_of_data (a b : String) (h : a.data = b.data) : a = b := by
  cases a
  cases b
  exact congrArg String.mk h

theorem strCodes_inj (a b : String) (h : strCodes a = strCodes b) : a = b := by
  unfold strCodes at h
  refine string_eq_of_data a b ?_
  have hinj : Function.Injective (fun c : Char => (c.toNat : Int)) := by
    intro c d hcd
    simp only at hcd
    have hN : c.toNat = d.toNat := by exact_mod_cast hcd
    exact Char.eq_of_val_eq (by unfold Char.toNat at hN; exact UInt32.toNat.inj hN)
  exact List.map_injective_iff.mpr hinj h

theorem strCodes_length (s : String) : (strCodes s).length = s.length := by
  simp [strCodes]

theorem compareAnything_eq_zero_iff (a b query : String) :
    compareAnything a b query = 0 ↔ a = b := by
  constructor
  · intro h
    have hk := listCmp_eq_zero _ _ h
    simp only [anyKey] at hk
    have hcodes : strCodes a = strCodes b := by
      injection hk with h1 rest
      injection rest with h2 h3
    exact strCodes_inj a b hcodes
  · rintro rfl
    exact listCmp_refl _

theorem sign_tail_cmp (query bnA bnB pA pB : String)
    (hbn : bnA.length = bnB.length) (hp : pA.length = pB.length) :
    Int.sign (if bnA ≠ bnB then compareAnything bnA bnB query
              else compareAnything pA pB query) =
    listCmp
      ((if (lowerChars query).isPrefixOf (lowerChars bnA) then (0 : Int) else 1) ::
        (strCodes bnA ++
          (if (lowerChars query).isPrefixOf (lowerChars pA) then (0 : Int) else 1) ::
            strCodes pA))
      ((if (lowerChars query).isPrefixOf (lowerChars bnB) then (0 : Int) else 1) ::
        (strCodes bnB ++
          (if (lowerChars query).isPrefixOf (lowerChars pB) then (0 : Int) else 1) ::
            strCodes pB)) := by
  have hbnInt : (bnA.length : Int) = (bnB.length : Int) := by exact_mod_cast hbn
  have hpInt : (pA.length : Int) = (pB.length : Int) := by exact_mod_cast hp
  by_cases hb : bnA = bnB
  · subst hb
    rw [if_neg (by simp)]
    rw [show compareAnything pA pB query = listCmp (anyKey query pA) (anyKey query pB) from rfl,
      sign_listCmp]
    rw [listCmp_cons_eq]
    rw [listCmp_append (strCodes bnA) (strCodes bnA) _ _ rfl, listCmp_refl, if_pos rfl]
    simp only [anyKey]
    by_cases hfa : (lowerChars query).isPrefixOf (lowerChars pA) = true
    · by_cases hfb : (lowerChars query).isPrefixOf (lowerChars pB) = true
      · rw [if_pos hfa, if_pos hfb, listCmp_cons_eq, listCmp_cons_eq, hpInt, listCmp_cons_eq]
      · rw [if_pos hfa, if_neg hfb, listCmp_cons_lt (by norm_num), listCmp_cons_lt (by norm_num)]
    · by_cases hfb : (lowerChars query).isPrefixOf (lowerChars pB) = true
      · rw [if_neg hfa, if_pos hfb, listCmp_cons_gt (by norm_num), listCmp_cons_gt (by norm_num)]
      · rw [if_neg hfa, if_neg hfb, listCmp_cons_eq, listCmp_cons_eq, hpInt, listCmp_cons_eq]
  · rw [if_pos hb]
    rw [show compareAnything bnA bnB query = listCmp (anyKey query bnA) (anyKey query bnB) from rfl,
      sign_listCmp]
    simp only [anyKey]
    have hclen : (strCodes bnA).length = (strCodes bnB).length := by
      rw [strCodes_length, strCodes_length, hbn]
    have hcne : listCmp (strCodes bnA) (strCodes bnB) ≠ 0 := by
      intro hc
      exact hb (strCodes_inj _ _ (listCmp_eq_zero _ _ hc))
    by_cases hfa : (lowerChars query).isPrefixOf (lowerChars bnA) = true
    · by_cases hfb : (lowerChars query).isPrefixOf (lowerChars bnB) = true
      · rw [if_pos hfa, if_pos hfb, listCmp_cons_eq, listCmp_cons_eq, hbnInt, listCmp_cons_eq,
          listCmp_append _ _ _ _ hclen, if_neg hcne]
      · rw [if_pos hfa, if_neg hfb, listCmp_cons_lt (by norm_num), listCmp_cons_lt (by norm_num)]
    · by_cases hfb : (lowerChars query).isPrefixOf (lowerChars bnB) = true
      · rw [if_neg hfa, if_pos hfb, listCmp_cons_gt (by norm_num), listCmp_cons_gt (by norm_num)]
      · rw [if_neg hfa, if_neg hfb, listCmp_cons_eq, listCmp_cons_eq, hbnInt, listCmp_cons_eq,
          listCmp_append _ _ _ _ hclen, if_neg hcne]

theorem sign_stage5 (query bnA bnB pA pB : String) :
    Int.sign
      (if bnA.length ≠ bnB.length then (bnA.length : Int) - (bnB.length : Int)
       else if pA.length ≠ pB.length then (pA.length : Int) - (pB.length : Int)
       else if bnA ≠ bnB then compareAnything bnA bnB query
       else compareAnything pA pB query) =
    listCmp
      ((bnA.length : Int) :: (pA.length : Int) ::
        (if (lowerChars query).isPrefixOf (lowerChars bnA) then (0 : Int) else 1) ::
        (strCodes bnA ++
          (if (lowerChars query).isPrefixOf (lowerChars pA) then (0 : Int) else 1) ::
            strCodes pA))
      ((bnB.length : Int) :: (pB.length : Int) ::
        (if (lowerChars query).isPrefixOf (lowerChars bnB) then (0 : Int) else 1) ::
        (strCodes bnB ++
          (if (lowerChars query).isPrefixOf (lowerChars pB) then (0 : Int) else 1) ::
            strCodes pB)) := by
  by_cases h5 : bnA.length = bnB.length
  · have hbc : (bnA.length : Int) = (bnB.length : Int) := by exact_mod_cast h5
    rw [hbc, listCmp_cons_eq, if_neg (by omega)]
    by_cases h6 : pA.length = pB.length
    · have hpc : (pA.length : Int) = (pB.length : Int) := by exact_mod_cast h6
      rw [hpc, listCmp_cons_eq, if_neg (by omega)]
      exact sign_tail_cmp query bnA bnB pA pB h5 h6
    · rw [if_pos h6]
      rcases Nat.lt_or_ge pA.length pB.length with hlt | hge
      · have hlt2 : (pA.length : Int) < (pB.length : Int) := by exact_mod_cast hlt
        rw [listCmp_cons_lt hlt2, Int.sign_eq_neg_one_iff_neg.mpr (by omega)]
      · have hgt : pB.length < pA.length := by omega
        have hgt2 : (pB.length : Int) < (pA.length : Int) := by exact_mod_cast hgt
        rw [listCmp_cons_gt hgt2, Int.sign_eq_one_iff_pos.mpr (by omega)]
  · rw [if_pos h5]
    rcases Nat.lt_or_ge bnA.length bnB.length with hlt | hge
    · have hlt2 : (bnA.length : Int) < (bnB.length : Int) := by exact_mod_cast hlt
      rw [listCmp_cons_lt hlt2, Int.sign_eq_neg_one_iff_neg.mpr (by omega)]
    · have hgt : bnB.length < bnA.length := by omega
      have hgt2 : (bnB.length : Int) < (bnA.length : Int) := by exact_mod_cast hgt
      rw [listCmp_cons_gt hgt2, Int.sign_eq_one_iff_pos.mpr (by omega)]

theorem listCmp_cons_eq2 {x y : Int} (h : x = y) (xs ys : List Int) :
    listCmp (x :: xs) (y :: ys) = listCmp xs ys := by
  subst h
  exact listCmp_cons_eq x xs ys

theorem sign_compare_eq_listCmp {T : Type} (accessor : IFileAccessor T) (query : String)
    (a b : T) :
    Int.sign (compareFilesByScore a b accessor query) =
      listCmp (fileKey accessor query a) (fileKey accessor query b) := by
  have h01 : (0 : Int) < 1 := by norm_num
  simp only [compareFilesByScore, fileKey]
  set sA := (scoreFile (some a) accessor query).score with hsAdef
  set sB := (scoreFile (some b) accessor query).score with hsBdef
  set bnA := accessor.getBasename a with hbnAdef
  set bnB := accessor.getBasename b with hbnBdef
  set pA := accessor.getPath a with hpAdef
  set pB := accessor.getPath b with hpBdef
  by_cases hA : sA = PATH_IDENTITY_SCORE
  · by_cases hB : sB = PATH_IDENTITY_SCORE
    · have hAB : sA = sB := hA.trans hB.symm
      have hnA2 : sA ≠ BASENAME_PREFIX_SCORE := by
        rw [hA]; norm_num [PATH_IDENTITY_SCORE, BASENAME_PREFIX_SCORE]
      have hnB2 : sB ≠ BASENAME_PREFIX_SCORE := by
        rw [hB]; norm_num [PATH_IDENTITY_SCORE, BASENAME_PREFIX_SCORE]
      have hgtA : sA > BASENAME_SCORE_THRESHOLD := by
        rw [hA]; norm_num [PATH_IDENTITY_SCORE, BASENAME_SCORE_THRESHOLD]
      have hgtB : sB > BASENAME_SCORE_THRESHOLD := by
        rw [hB]; norm_num [PATH_IDENTITY_SCORE, BASENAME_SCORE_THRESHOLD]
      have hsc : (-sA : Int) = -sB := by rw [hAB]
      conv_lhs => rw [if_neg (fun hc => hc.2 hAB),
        if_neg (fun hc => hc.2 hAB),
        if_neg (fun hc => hc.1.elim hnA2 hnB2),
        if_neg (fun hc => absurd hc.2 (by omega)),
        if_neg (fun hc => absurd hc.2 (by omega)),
        if_neg (fun hc => hc hAB)]
      conv_rhs => rw [if_pos hA, if_pos hB, listCmp_cons_eq,
        if_neg hnA2, if_neg hnB2, listCmp_cons_eq,
        if_neg hnA2, if_neg hnB2, listCmp_cons_eq,
        if_pos hgtA, if_pos hgtB, listCmp_cons_eq,
        listCmp_cons_eq2 hsc _ _]
      exact sign_stage5 query bnA bnB pA pB
    · have hne : sA ≠ sB := fun hc => hB (by rw [← hc]; exact hA)
      conv_lhs => rw [if_pos ⟨Or.inl hA, hne⟩, if_pos hA]
      conv_rhs => rw [if_pos hA, if_neg hB, listCmp_cons_lt h01]
      rfl
  · by_cases hB : sB = PATH_IDENTITY_SCORE
    · have hne : sA ≠ sB := fun hc => hA (by rw [hc]; exact hB)
      conv_lhs => rw [if_pos ⟨Or.inr hB, hne⟩, if_neg hA]
      conv_rhs => rw [if_neg hA, if_pos hB, listCmp_cons_gt h01]
      rfl
    · conv_lhs => rw [if_neg (fun hc => hc.1.elim hA hB)]
      conv_rhs => rw [if_neg hA, if_neg hB, listCmp_cons_eq]
      by_cases hA2 : sA = BASENAME_PREFIX_SCORE
      · by_cases hB2 : sB = BASENAME_PREFIX_SCORE
        · have hAB : sA = sB := hA2.trans hB2.symm
          conv_lhs => rw [if_neg (fun hc => hc.2 hAB)]
          conv_rhs => rw [if_pos hA2, if_pos hB2, listCmp_cons_eq]
          by_cases hl : bnA.length = bnB.length
          · have hgtA : sA > BASENAME_SCORE_THRESHOLD := by
              rw [hA2]; norm_num [BASENAME_PREFIX_SCORE, BASENAME_SCORE_THRESHOLD]
            have hgtB : sB > BASENAME_SCORE_THRESHOLD := by
              rw [hB2]; norm_num [BASENAME_PREFIX_SCORE, BASENAME_SCORE_THRESHOLD]
            have hlc : ((bnA.length : Int)) = (bnB.length : Int) := by exact_mod_cast hl
            have hsc : (-sA : Int) = -sB := by rw [hAB]
            conv_lhs => rw [if_neg (fun hc => hc.2 hl),
              if_neg (fun hc => absurd hc.2 (by omega)),
              if_neg (fun hc => absurd hc.2 (by omega)),
              if_neg (fun hc => hc hAB)]
            conv_rhs => rw [if_pos hA2, if_pos hB2,
              listCmp_cons_eq2 hlc _ _,
              if_pos hgtA, if_pos hgtB, listCmp_cons_eq,
              listCmp_cons_eq2 hsc _ _]
            exact sign_stage5 query bnA bnB pA pB
          · conv_lhs => rw [if_pos ⟨Or.inl hA2, hl⟩]
            conv_rhs => rw [if_pos hA2, if_pos hB2]
            rcases Nat.lt_or_ge bnA.length bnB.length with hlt | hge
            · have hlt2 : (bnA.length : Int) < (bnB.length : Int) := by exact_mod_cast hlt
              conv_rhs => rw [listCmp_cons_lt hlt2]
              rw [Int.sign_eq_neg_one_iff_neg.mpr (by omega)]
            · have hgt : bnB.length < bnA.length := by omega
              have hgt2 : (bnB.length : Int) < (bnA.length : Int) := by exact_mod_cast hgt
              conv_rhs => rw [listCmp_cons_gt hgt2]
              rw [Int.sign_eq_one_iff_pos.mpr (by omega)]
        · have hne : sA ≠ sB := fun hc => hB2 (by rw [← hc]; exact hA2)
          conv_lhs => rw [if_pos ⟨Or.inl hA2, hne⟩, if_pos hA2]
          conv_rhs => rw [if_pos hA2, if_neg hB2, listCmp_cons_lt h01]
          rfl
      · by_cases hB2 : sB = BASENAME_PREFIX_SCORE
        · have hne : sA ≠ sB := fun hc => hA2 (by rw [hc]; exact hB2)
          conv_lhs => rw [if_pos ⟨Or.inr hB2, hne⟩, if_neg hA2]
          conv_rhs => rw [if_neg hA2, if_pos hB2, listCmp_cons_gt h01]
          rfl
        · conv_lhs => rw [if_neg (fun hc => hc.1.elim hA2 hB2),
            if_neg (fun hc => hc.1.elim hA2 hB2)]
          conv_rhs => rw [if_neg hA2, if_neg hB2, listCmp_cons_eq,
            if_neg hA2, if_neg hB2, listCmp_cons_eq]
          by_cases hA3 : sA > BASENAME_SCORE_THRESHOLD
          · by_cases hB3 : sB > BASENAME_SCORE_THRESHOLD
            · conv_lhs => rw [if_neg (fun hc => absurd hc.2 (by omega)),
                if_neg (fun hc => absurd hc.2 (by omega))]
              conv_rhs => rw [if_pos hA3, if_pos hB3, listCmp_cons_eq]
              by_cases h4 : sA = sB
              · conv_lhs => rw [if_neg (fun hc => hc h4)]
                have hsc : (-sA : Int) = -sB := by rw [h4]
                conv_rhs => rw [listCmp_cons_eq2 hsc _ _]
                exact sign_stage5 query bnA bnB pA pB
              · conv_lhs => rw [if_pos h4]
                rcases lt_or_gt_of_ne h4 with hlt | hgt
                · conv_lhs => rw [if_neg (by omega)]
                  have hx : (-sB : Int) < -sA := by omega
                  conv_rhs => rw [listCmp_cons_gt hx]
                  rfl
                · conv_lhs => rw [if_pos (by omega : sA > sB)]
                  have hx : (-sA : Int) < -sB := by omega
                  conv_rhs => rw [listCmp_cons_lt hx]
                  rfl
            · by_cases hB3l : sB < BASENAME_SCORE_THRESHOLD
              · conv_lhs => rw [if_pos ⟨Or.inl hA3, hB3l⟩]
                conv_rhs => rw [if_pos hA3, if_neg hB3, listCmp_cons_lt h01]
                rfl
              · have hne : sA ≠ sB := by omega
                conv_lhs => rw [if_neg (fun hc => absurd hc.2 hB3l),
                  if_neg (fun hc => absurd hc.2 (by omega)),
                  if_pos hne, if_pos (by omega : sA > sB)]
                conv_rhs => rw [if_pos hA3, if_neg hB3, listCmp_cons_lt h01]
                rfl
          · by_cases hB3 : sB > BASENAME_SCORE_THRESHOLD
            · by_cases hA3l : sA < BASENAME_SCORE_THRESHOLD
              · conv_lhs => rw [if_neg (fun hc => absurd hc.2 (by omega)),
                  if_pos ⟨Or.inr hB3, hA3l⟩]
                conv_rhs => rw [if_neg hA3, if_pos hB3, listCmp_cons_gt h01]
                rfl
              · have hne : sA ≠ sB := by omega
                conv_lhs => rw [if_neg (fun hc => absurd hc.2 (by omega)),
                  if_neg (fun hc => absurd hc.2 hA3l),
                  if_pos hne, if_neg (by omega : ¬ sA > sB)]
                conv_rhs => rw [if_neg hA3, if_pos hB3, listCmp_cons_gt h01]
                rfl
            · conv_lhs => rw [if_neg (fun hc => hc.1.elim hA3 hB3),
                if_neg (fun hc => hc.1.elim hA3 hB3)]
              conv_rhs => rw [if_neg hA3, if_neg hB3, listCmp_cons_eq]
              by_cases h4 : sA = sB
              · conv_lhs => rw [if_neg (fun hc => hc h4)]
                have hsc : (-sA : Int) = -sB := by rw [h4]
                conv_rhs => rw [listCmp_cons_eq2 hsc _ _]
                exact sign_stage5 query bnA bnB pA pB
              · conv_lhs => rw [if_pos h4]
                rcases lt_or_gt_of_ne h4 with hlt | hgt
                · conv_lhs => rw [if_neg (by omega)]
                  have hx : (-sB : Int) < -sA := by omega
                  conv_rhs => rw [listCmp_cons_gt hx]
                  rfl
                · conv_lhs => rw [if_pos (by omega : sA > sB)]
                  have hx : (-sA : Int) < -sB := by omega
                  conv_rhs => rw [listCmp_cons_lt hx]
                  rfl

theorem sign_stage5_spec (query bnA bnB pA pB : String) :
    Int.sign
      (if bnA.length < bnB.length then (-1 : Int)
       else if bnB.length < bnA.length then 1
       else if pA.length < pB.length then -1
       else if pB.length < pA.length then 1
       else if compareAnything bnA bnB query ≠ 0 then compareAnything bnA bnB query
       else compareAnything pA pB query) =
    listCmp
      ((bnA.length : Int) :: (pA.length : Int) ::
        (if (lowerChars query).isPrefixOf (lowerChars bnA) then (0 : Int) else 1) ::
        (strCodes bnA ++
          (if (lowerChars query).isPrefixOf (lowerChars pA) then (0 : Int) else 1) ::
            strCodes pA))
      ((bnB.length : Int) :: (pB.length : Int) ::
        (if (lowerChars query).isPrefixOf (lowerChars bnB) then (0 : Int) else 1) ::
        (strCodes bnB ++
          (if (lowerChars query).isPrefixOf (lowerChars pB) then (0 : Int) else 1) ::
            strCodes pB)) := by
  have hgate : (if compareAnything bnA bnB query ≠ 0 then compareAnything bnA bnB query
                else compareAnything pA pB query) =
               (if bnA ≠ bnB then compareAnything bnA bnB query
                else compareAnything pA pB query) :=
    if_congr (not_congr (compareAnything_eq_zero_iff bnA bnB query)) rfl rfl
  by_cases h5 : bnA.length = bnB.length
  · have hbc : ((bnA.length : Int)) = (bnB.length : Int) := by exact_mod_cast h5
    conv_lhs => rw [if_neg (by omega : ¬ bnA.length < bnB.length),
      if_neg (by omega : ¬ bnB.length < bnA.length)]
    conv_rhs => rw [listCmp_cons_eq2 hbc _ _]
    by_cases h6 : pA.length = pB.length
    · have hpc : ((pA.length : Int)) = (pB.length : Int) := by exact_mod_cast h6
      conv_lhs => rw [if_neg (by omega : ¬ pA.length < pB.length),
        if_neg (by omega : ¬ pB.length < pA.length), hgate]
      conv_rhs => rw [listCmp_cons_eq2 hpc _ _]
      exact sign_tail_cmp query bnA bnB pA pB h5 h6
    · rcases Nat.lt_or_ge pA.length pB.length with hlt | hge
      · have hlt2 : (pA.length : Int) < (pB.length : Int) := by exact_mod_cast hlt
        conv_lhs => rw [if_pos hlt]
        conv_rhs => rw [listCmp_cons_lt hlt2]
        rfl
      · have hgt : pB.length < pA.length := by omega
        have hgt2 : (pB.length : Int) < (pA.length : Int) := by exact_mod_cast hgt
        conv_lhs => rw [if_neg (by omega : ¬ pA.length < pB.length), if_pos hgt]
        conv_rhs => rw [listCmp_cons_gt hgt2]
        rfl
  · rcases Nat.lt_or_ge bnA.length bnB.length with hlt | hge
    · have hlt2 : (bnA.length : Int) < (bnB.length : Int) := by exact_mod_cast hlt
      conv_lhs => rw [if_pos hlt]
      conv_rhs => rw [listCmp_cons_lt hlt2]
      rfl
    · have hgt : bnB.length < bnA.length := by omega
      have hgt2 : (bnB.length : Int) < (bnA.length : Int) := by exact_mod_cast hgt
      conv_lhs => rw [if_neg (by omega : ¬ bnA.length < bnB.length), if_pos hgt]
      conv_rhs => rw [listCmp_cons_gt hgt2]
      rfl

theorem sign_compareSpec_eq_listCmp {T : Type} (accessor : IFileAccessor T) (query : String)
    (a b : T) :
    Int.sign (compareFilesByScoreSpec a b accessor query) =
      listCmp (fileKey accessor query a) (fileKey accessor query b) := by
  have h01 : (0 : Int) < 1 := by norm_num
  simp only [compareFilesByScoreSpec, fileKey]
  set sA := (scoreFile (some a) accessor query).score with hsAdef
  set sB := (scoreFile (some b) accessor query).score with hsBdef
  set bnA := accessor.getBasename a with hbnAdef
  set bnB := accessor.getBasename b with hbnBdef
  set pA := accessor.getPath a with hpAdef
  set pB := accessor.getPath b with hpBdef
  by_cases hA : sA = PATH_IDENTITY_SCORE
  · by_cases hB : sB = PATH_IDENTITY_SCORE
    · have hAB : sA = sB := hA.trans hB.symm
      have hnA2 : sA ≠ BASENAME_PREFIX_SCORE := by
        rw [hA]; norm_num [PATH_IDENTITY_SCORE, BASENAME_PREFIX_SCORE]
      have hnB2 : sB ≠ BASENAME_PREFIX_SCORE := by
        rw [hB]; norm_num [PATH_IDENTITY_SCORE, BASENAME_PREFIX_SCORE]
      have hgtA : sA > BASENAME_SCORE_THRESHOLD := by
        rw [hA]; norm_num [PATH_IDENTITY_SCORE, BASENAME_SCORE_THRESHOLD]
      have hgtB : sB > BASENAME_SCORE_THRESHOLD := by
        rw [hB]; norm_num [PATH_IDENTITY_SCORE, BASENAME_SCORE_THRESHOLD]
      have hsc : (-sA : Int) = -sB := by rw [hAB]
      conv_lhs => rw [if_neg (fun hc => hc.2 hB),
        if_neg (fun hc => hc.2 hA),
        if_neg (fun hc => hnA2 hc.1),
        if_neg (fun hc => hnB2 hc.1),
        if_neg (fun hc => hnA2 hc.1),
        if_neg (fun hc => hnA2 hc.1),
        if_neg (fun hc => absurd hc.2 (by omega)),
        if_neg (fun hc => absurd hc.2 (by omega)),
        if_neg (by omega : ¬ sB < sA),
        if_neg (by omega : ¬ sA < sB)]
      conv_rhs => rw [if_pos hA, if_pos hB, listCmp_cons_eq,
        if_neg hnA2, if_neg hnB2, listCmp_cons_eq,
        if_neg hnA2, if_neg hnB2, listCmp_cons_eq,
        if_pos hgtA, if_pos hgtB, listCmp_cons_eq,
        listCmp_cons_eq2 hsc _ _]
      exact sign_stage5_spec query bnA bnB pA pB
    · conv_lhs => rw [if_pos ⟨hA, hB⟩]
      conv_rhs => rw [if_pos hA, if_neg hB, listCmp_cons_lt h01]
      rfl
  · by_cases hB : sB = PATH_IDENTITY_SCORE
    · conv_lhs => rw [if_neg (fun hc => hA hc.1), if_pos ⟨hB, hA⟩]
      conv_rhs => rw [if_neg hA, if_pos hB, listCmp_cons_gt h01]
      rfl
    · conv_lhs => rw [if_neg (fun hc => hA hc.1), if_neg (fun hc => hB hc.1)]
      conv_rhs => rw [if_neg hA, if_neg hB, listCmp_cons_eq]
      by_cases hA2 : sA = BASENAME_PREFIX_SCORE
      · by_cases hB2 : sB = BASENAME_PREFIX_SCORE
        · have hAB : sA = sB := hA2.trans hB2.symm
          conv_lhs => rw [if_neg (fun hc => hc.2 hB2), if_neg (fun hc => hc.2 hA2)]
          conv_rhs => rw [if_pos hA2, if_pos hB2, listCmp_cons_eq]
          by_cases hl : bnA.length = bnB.length
          · have hgtA : sA > BASENAME_SCORE_THRESHOLD := by
              rw [hA2]; norm_num [BASENAME_PREFIX_SCORE, BASENAME_SCORE_THRESHOLD]
            have hgtB : sB > BASENAME_SCORE_THRESHOLD := by
              rw [hB2]; norm_num [BASENAME_PREFIX_SCORE, BASENAME_SCORE_THRESHOLD]
            have hlc : ((bnA.length : Int)) = (bnB.length : Int) := by exact_mod_cast hl
            have hsc : (-sA : Int) = -sB := by rw [hAB]
            conv_lhs => rw [if_neg (fun hc => absurd hc.2.2 (by omega)),
              if_neg (fun hc => absurd hc.2.2 (by omega)),
              if_neg (fun hc => absurd hc.2 (by omega)),
              if_neg (fun hc => absurd hc.2 (by omega)),
              if_neg (by omega : ¬ sB < sA),
              if_neg (by omega : ¬ sA < sB)]
            conv_rhs => rw [if_pos hA2, if_pos hB2,
              listCmp_cons_eq2 hlc _ _,
              if_pos hgtA, if_pos hgtB, listCmp_cons_eq,
              listCmp_cons_eq2 hsc _ _]
            exact sign_stage5_spec query bnA bnB pA pB
          · rcases Nat.lt_or_ge bnA.length bnB.length with hlt | hge
            · have hlt2 : (bnA.length : Int) < (bnB.length : Int) := by exact_mod_cast hlt
              conv_lhs => rw [if_pos ⟨hA2, hB2, hlt⟩]
              conv_rhs => rw [if_pos hA2, if_pos hB2, listCmp_cons_lt hlt2]
              rfl
            · have hgt : bnB.length < bnA.length := by omega
              have hgt2 : (bnB.length : Int) < (bnA.length : Int) := by exact_mod_cast hgt
              conv_lhs => rw [if_neg (fun hc => absurd hc.2.2 (by omega)),
                if_pos ⟨hA2, hB2, hgt⟩]
              conv_rhs => rw [if_pos hA2, if_pos hB2, listCmp_cons_gt hgt2]
              rfl
        · conv_lhs => rw [if_pos ⟨hA2, hB2⟩]
          conv_rhs => rw [if_pos hA2, if_neg hB2, listCmp_cons_lt h01]
          rfl
      · by_cases hB2 : sB = BASENAME_PREFIX_SCORE
        · conv_lhs => rw [if_neg (fun hc => hA2 hc.1), if_pos ⟨hB2, hA2⟩]
          conv_rhs => rw [if_neg hA2, if_pos hB2, listCmp_cons_gt h01]
          rfl
        · conv_lhs => rw [if_neg (fun hc => hA2 hc.1), if_neg (fun hc => hB2 hc.1),
            if_neg (fun hc => hA2 hc.1), if_neg (fun hc => hA2 hc.1)]
          conv_rhs => rw [if_neg hA2, if_neg hB2, listCmp_cons_eq,
            if_neg hA2, if_neg hB2, listCmp_cons_eq]
          by_cases hA3 : sA > BASENAME_SCORE_THRESHOLD
          · by_cases hB3 : sB > BASENAME_SCORE_THRESHOLD
            · conv_lhs => rw [if_neg (fun hc => absurd hc.2 (by omega)),
                if_neg (fun hc => absurd hc.2 (by omega))]
              conv_rhs => rw [if_pos hA3, if_pos hB3, listCmp_cons_eq]
              by_cases h4 : sA = sB
              · have hsc : (-sA : Int) = -sB := by rw [h4]
                conv_lhs => rw [if_neg (by omega : ¬ sB < sA),
                  if_neg (by omega : ¬ sA < sB)]
                conv_rhs => rw [listCmp_cons_eq2 hsc _ _]
                exact sign_stage5_spec query bnA bnB pA pB
              · rcases lt_or_gt_of_ne h4 with hlt | hgt
                · have hx : (-sB : Int) < -sA := by omega
                  conv_lhs => rw [if_neg (by omega : ¬ sB < sA), if_pos hlt]
                  conv_rhs => rw [listCmp_cons_gt hx]
                  rfl
                · have hx : (-sA : Int) < -sB := by omega
                  conv_lhs => rw [if_pos (by omega : sB < sA)]
                  conv_rhs => rw [listCmp_cons_lt hx]
                  rfl
            · by_cases hB3l : sB < BASENAME_SCORE_THRESHOLD
              · conv_lhs => rw [if_pos ⟨hA3, hB3l⟩]
                conv_rhs => rw [if_pos hA3, if_neg hB3, listCmp_cons_lt h01]
                rfl
              · conv_lhs => rw [if_neg (fun hc => absurd hc.2 hB3l),
                  if_neg (fun hc => hB3 hc.1),
                  if_pos (by omega : sB < sA)]
                conv_rhs => rw [if_pos hA3, if_neg hB3, listCmp_cons_lt h01]
                rfl
          · by_cases hB3 : sB > BASENAME_SCORE_THRESHOLD
            · by_cases hA3l : sA < BASENAME_SCORE_THRESHOLD
              · conv_lhs => rw [if_neg (fun hc => hA3 hc.1), if_pos ⟨hB3, hA3l⟩]
                conv_rhs => rw [if_neg hA3, if_pos hB3, listCmp_cons_gt h01]
                rfl
              · conv_lhs => rw [if_neg (fun hc => hA3 hc.1),
                  if_neg (fun hc => absurd hc.2 hA3l),
                  if_neg (by omega : ¬ sB < sA),
                  if_pos (by omega : sA < sB)]
                conv_rhs => rw [if_neg hA3, if_pos hB3, listCmp_cons_gt h01]
                rfl
            · conv_lhs => rw [if_neg (fun hc => hA3 hc.1), if_neg (fun hc => hB3 hc.1)]
              conv_rhs => rw [if_neg hA3, if_neg hB3, listCmp_cons_eq]
              by_cases h4 : sA = sB
              · have hsc : (-sA : Int) = -sB := by rw [h4]
                conv_lhs => rw [if_neg (by omega : ¬ sB < sA),
                  if_neg (by omega : ¬ sA < sB)]
                conv_rhs => rw [listCmp_cons_eq2 hsc _ _]
                exact sign_stage5_spec query bnA bnB pA pB
              · rcases lt_or_gt_of_ne h4 with hlt | hgt
                · have hx : (-sB : Int) < -sA := by omega
                  conv_lhs => rw [if_neg (by omega : ¬ sB < sA), if_pos hlt]
                  conv_rhs => rw [listCmp_cons_gt hx]
                  rfl
                · have hx : (-sA : Int) < -sB := by omega
                  conv_lhs => rw [if_pos (by omega : sB < sA)]
                  conv_rhs => rw [listCmp_cons_lt hx]
                  rfl

/-- C4: the comparator applies its tie-break cascade strictly in the claimed
order - identity wins; then prefix wins, both prefixes broken by shorter
basename; then a score above the basename threshold beats one below it; then
the higher raw score; then shorter basename, shorter path, the
`compareAnything` comparison of basenames against the query, and finally the
same comparison of full paths: its sign always agrees with the cascade
`compareFilesByScoreSpec` transcribed from the claim. -/
theorem C4_compare_cascade_order {T : Type} (fileA fileB : T)
    (accessor : IFileAccessor T) (query : String) :
    Int.sign (compareFilesByScore fileA fileB accessor query) =
      Int.sign (compareFilesByScoreSpec fileA fileB accessor query) :=
  (sign_compare_eq_listCmp accessor query fileA fileB).trans
    (sign_compareSpec_eq_listCmp accessor query fileA fileB).symm

/-- The canonical file model for the ordering claims: a file is exactly its
(basename, path) projection pair. -/
def pairAccessor : IFileAccessor (String × String) where
  getBasename := Prod.fst
  getPath := Prod.snd

theorem nat_cast_inj_of_int {m n : Nat} (h : (m : Int) = n) : m = n := by
  exact_mod_cast h

theorem fileKey_inj_pair (query : String) (a b : String × String)
    (h : fileKey pairAccessor query a = fileKey pairAccessor query b) : a = b := by
  simp only [fileKey, pairAccessor] at h
  injection h with k1 h
  injection h with k2 h
  injection h with k3 h
  injection h with k4 h
  injection h with k5 h
  injection h with k6 h
  injection h with k7 h
  injection h with k8 h
  have hbnlen : (Prod.fst a).length = (Prod.fst b).length := nat_cast_inj_of_int k6
  have hclen : (strCodes (Prod.fst a)).length = (strCodes (Prod.fst b)).length := by
    rw [strCodes_length, strCodes_length, hbnlen]
  obtain ⟨hbn, htail⟩ := List.append_inj h hclen
  injection htail with k9 hp
  have h1 : Prod.fst a = Prod.fst b := strCodes_inj _ _ hbn
  have h2 : Prod.snd a = Prod.snd b := strCodes_inj _ _ hp
  exact Prod.ext h1 h2

theorem sign_nonpos_iff (x : Int) : Int.sign x ≤ 0 ↔ x ≤ 0 := by
  rcases lt_trichotomy x 0 with h | h | h
  · rw [Int.sign_eq_neg_one_iff_neg.mpr h]
    omega
  · subst h
    simp
  · rw [Int.sign_eq_one_iff_pos.mpr h]
    omega

theorem cmp_le_zero_iff {T : Type} (accessor : IFileAccessor T) (query : String) (x y : T) :
    compareFilesByScore x y accessor query ≤ 0 ↔
      listCmp (fileKey accessor query x) (fileKey accessor query y) ≤ 0 := by
  rw [← sign_nonpos_iff, sign_compare_eq_listCmp]

theorem cmp_eq_zero_iff {T : Type} (accessor : IFileAccessor T) (query : String) (x y : T) :
    compareFilesByScore x y accessor query = 0 ↔
      listCmp (fileKey accessor query x) (fileKey accessor query y) = 0 := by
  rw [← Int.sign_eq_zero_iff_zero, sign_compare_eq_listCmp]

/-- C5: over the canonical pair model, `compareFilesByScore` with a fixed query
is a deterministic strict weak (indeed total) order: comparisons in the two
directions have opposite signs and are zero together, the induced order is
transitive, and sorting permuted lists yields the same result. -/
theorem C5_comparator_total_order (query : String) (a b c : String × String)
    (l₁ l₂ : List (String × String))
    (hab : compareFilesByScore a b pairAccessor query ≤ 0)
    (hbc : compareFilesByScore b c pairAccessor query ≤ 0)
    (hperm : l₁.Perm l₂) :
    Int.sign (compareFilesByScore a b pairAccessor query) =
      - Int.sign (compareFilesByScore b a pairAccessor query) ∧
    (compareFilesByScore a b pairAccessor query = 0 ↔
      compareFilesByScore b a pairAccessor query = 0) ∧
    compareFilesByScore a c pairAccessor query ≤ 0 ∧
    List.insertionSort (fun x y => compareFilesByScore x y pairAccessor query ≤ 0) l₁ =
      List.insertionSort (fun x y => compareFilesByScore x y pairAccessor query ≤ 0) l₂ := by
  have hflip : ∀ x y : String × String,
      Int.sign (compareFilesByScore x y pairAccessor query) =
        - Int.sign (compareFilesByScore y x pairAccessor query) := by
    intro x y
    rw [sign_compare_eq_listCmp, sign_compare_eq_listCmp]
    have := listCmp_neg (fileKey pairAccessor query x) (fileKey pairAccessor query y)
    omega
  refine ⟨hflip a b, ?_, ?_, ?_⟩
  · rw [cmp_eq_zero_iff, cmp_eq_zero_iff]
    have := listCmp_neg (fileKey pairAccessor query a) (fileKey pairAccessor query b)
    omega
  · rw [cmp_le_zero_iff] at hab hbc ⊢
    exact listCmp_trans _ _ _ hab hbc
  · set r := fun x y : String × String => compareFilesByScore x y pairAccessor query ≤ 0
      with hrdef
    haveI : IsTotal (String × String) r := by
      constructor
      intro x y
      simp only [hrdef, cmp_le_zero_iff]
      have hneg := listCmp_neg (fileKey pairAccessor query x) (fileKey pairAccessor query y)
      rcases listCmp_mem (fileKey pairAccessor query x) (fileKey pairAccessor query y)
        with h | h | h
      · exact Or.inl (by omega)
      · exact Or.inl (by omega)
      · exact Or.inr (by omega)
    haveI : IsTrans (String × String) r := by
      constructor
      intro x y z hxy hyz
      simp only [hrdef, cmp_le_zero_iff] at hxy hyz ⊢
      exact listCmp_trans _ _ _ hxy hyz
    haveI : IsAntisymm (String × String) r := by
      constructor
      intro x y hxy hyx
      simp only [hrdef, cmp_le_zero_iff] at hxy hyx
      have hneg := listCmp_neg (fileKey pairAccessor query x) (fileKey pairAccessor query y)
      have hz : listCmp (fileKey pairAccessor query x) (fileKey pairAccessor query y) = 0 := by
        omega
      exact fileKey_inj_pair query x y (listCmp_eq_zero _ _ hz)
    have hp : (List.insertionSort r l₁).Perm (List.insertionSort r l₂) :=
      (List.perm_insertionSort r l₁).trans (hperm.trans (List.perm_insertionSort r l₂).symm)
    exact List.eq_of_perm_of_sorted hp (List.sorted_insertionSort r l₁)
      (List.sorted_insertionSort r l₂)

/-- Witness for C5 at the test-suite resources and query `fileA`, with the
list sorted from both orientations. -/
theorem C5_comparator_total_order_witness :
    Int.sign (compareFilesByScore ("fileA.txt", "/some/path/fileA.txt")
        ("fileB.txt", "/some/path/other/fileB.txt") pairAccessor "fileA") =
      - Int.sign (compareFilesByScore ("fileB.txt", "/some/path/other/fileB.txt")
        ("fileA.txt", "/some/path/fileA.txt") pairAccessor "fileA") ∧
    (compareFilesByScore ("fileA.txt", "/some/path/fileA.txt")
        ("fileB.txt", "/some/path/other/fileB.txt") pairAccessor "fileA" = 0 ↔
      compareFilesByScore ("fileB.txt", "/some/path/other/fileB.txt")
        ("fileA.txt", "/some/path/fileA.txt") pairAccessor "fileA" = 0) ∧
    compareFilesByScore ("fileA.txt", "/some/path/fileA.txt")
      ("fileC.txt", "/unrelated/some/path/other/fileC.txt") pairAccessor "fileA" ≤ 0 ∧
    List.insertionSort
        (fun x y => compareFilesByScore x y pairAccessor "fileA" ≤ 0)
        [("fileA.txt", "/some/path/fileA.txt"), ("fileB.txt", "/some/path/other/fileB.txt"),
          ("fileC.txt", "/unrelated/some/path/other/fileC.txt")] =
      List.insertionSort
        (fun x y => compareFilesByScore x y pairAccessor "fileA" ≤ 0)
        [("fileC.txt", "/unrelated/some/path/other/fileC.txt"),
          ("fileB.txt", "/some/path/other/fileB.txt"),
          ("fileA.txt", "/some/path/fileA.txt")] :=
  C5_comparator_total_order "fileA"
    ("fileA.txt", "/some/path/fileA.txt")
    ("fileB.txt", "/some/path/other/fileB.txt")
    ("fileC.txt", "/unrelated/some/path/other/fileC.txt")
    [("fileA.txt", "/some/path/fileA.txt"), ("fileB.txt", "/some/path/other/fileB.txt"),
      ("fileC.txt", "/unrelated/some/path/other/fileC.txt")]
    [("fileC.txt", "/unrelated/some/path/other/fileC.txt"),
      ("fileB.txt", "/some/path/other/fileB.txt"),
      ("fileA.txt", "/some/path/fileA.txt")]
    (by decide) (by decide) (by decide)

theorem score_nonneg (t q : String) : 0 ≤ (score t q).1 := by
  unfold score
  split
  · simp [NO_SCORE]
  · split
    · simp [NO_SCORE]
    · simp only [scoreBody]
      split
      · rename_i h
        omega
      · simp [NO_SCORE]

theorem scoreLoop_le (t tl : List Char) (qp : List (Char × Char)) :
    ∀ (qIdx startAt : Nat) (sc : Int) (pos : List Nat),
      0 ≤ sc → (qIdx = 0 ∨ 0 < startAt) →
      (scoreLoop t tl qp qIdx startAt sc pos).1 ≤ sc + 14 * qp.length := by
  induction qp with
  | nil =>
    intro qIdx startAt sc pos hsc _
    simp only [scoreLoop, List.length_nil]
    omega
  | cons p rest ih =>
    obtain ⟨qc, qlc⟩ := p
    intro qIdx startAt sc pos hsc hinv
    simp only [scoreLoop]
    split
    · simp only [List.length_cons]
      have : (0 : Int) ≤ 14 * ((rest.length : Int) + 1) := by positivity
      push_cast
      omega
    · rename_i i hidx
      have key : ∀ s4 : Int, s4 ≤ sc + 14 → 0 ≤ s4 →
          (scoreLoop t tl rest (qIdx + 1) (i + 1) s4 (pos ++ [i])).1 ≤
            sc + 14 * (((qc, qlc) :: rest).length : Int) := by
        intro s4 h1 h2
        have hrec := ih (qIdx + 1) (i + 1) s4 (pos ++ [i]) h2 (Or.inr (by omega))
        simp only [List.length_cons]
        push_cast
        push_cast at hrec
        omega
      apply key
      · split_ifs <;> omega
      · split_ifs <;> omega

theorem score_le_14len (t q : String) : (score t q).1 ≤ 14 * (q.length : Int) := by
  have hlen0 : (0 : Int) ≤ 14 * (q.length : Int) := by positivity
  unfold score
  split
  · simp only [NO_SCORE]
    exact hlen0
  · split
    · simp only [NO_SCORE]
      exact hlen0
    · simp only [scoreBody]
      have hl := scoreLoop_le t.data (t.data.map Char.toLower)
        (q.data.zip (q.data.map Char.toLower)) 0 0 0 [] le_rfl (Or.inl rfl)
      have hzlen : (q.data.zip (q.data.map Char.toLower)).length = q.length := by
        rw [List.length_zip]
        simp
      rw [hzlen] at hl
      split
      · omega
      · simp only [NO_SCORE]
        exact hlen0

theorem getD_replicate (d a : Char) : ∀ (n m : Nat), m < n →
    (List.replicate n a).getD m d = a := by
  intro n
  induction n with
  | zero => intro m h; omega
  | succ k ih =>
    intro m h
    cases m with
    | zero => simp [List.replicate_succ]
    | succ m2 =>
      rw [List.replicate_succ, List.getD_cons_succ]
      exact ih m2 (by omega)

theorem indexOfFrom_b_rep (n k : Nat) (h1 : 1 ≤ k) (h2 : k ≤ n) :
    indexOfFrom ('b' :: List.replicate n 'a') 'a' k = some k := by
  unfold indexOfFrom
  have hd : ('b' :: List.replicate n 'a').drop k = List.replicate (n + 1 - k) 'a' := by
    cases k with
    | zero => omega
    | succ m =>
      rw [List.drop_succ_cons, List.drop_replicate]
      congr 1
      omega
  rw [hd]
  have hrw : n + 1 - k = (n - k) + 1 := by omega
  rw [hrw, List.replicate_succ]
  simp [indexOfAux]

theorem zip_replicate_self (x y : Char) : ∀ (n : Nat),
    (List.replicate n x).zip (List.replicate n y) = List.replicate n (x, y) := by
  intro n
  induction n with
  | zero => rfl
  | succ k ih => simp [List.replicate_succ, ih]

theorem scoreLoop_cons_some {t tl : List Char} {qc qlc : Char} {rest : List (Char × Char)}
    {qIdx startAt : Nat} {sc : Int} {pos : List Nat} {i : Nat}
    (hidx : indexOfFrom tl qlc startAt = some i) :
    scoreLoop t tl ((qc, qlc) :: rest) qIdx startAt sc pos =
      scoreLoop t tl rest (qIdx + 1) (i + 1)
        (if i = 0 then
          (if t.getD i 'a' = qc then
              (if startAt = i ∧ qIdx > 0 then sc + 1 + 5 else sc + 1) + 1
            else if startAt = i ∧ qIdx > 0 then sc + 1 + 5 else sc + 1) + 8
        else
          if t.getD (i - 1) 'a' ∈ wordPathBoundary then
            (if t.getD i 'a' = qc then
                (if startAt = i ∧ qIdx > 0 then sc + 1 + 5 else sc + 1) + 1
              else if startAt = i ∧ qIdx > 0 then sc + 1 + 5 else sc + 1) + 7
          else
            if isUpper (t.getD i 'a').toNat = true then
              (if t.getD i 'a' = qc then
                  (if startAt = i ∧ qIdx > 0 then sc + 1 + 5 else sc + 1) + 1
                else if startAt = i ∧ qIdx > 0 then sc + 1 + 5 else sc + 1) + 1
            else
              if t.getD i 'a' = qc then
                (if startAt = i ∧ qIdx > 0 then sc + 1 + 5 else sc + 1) + 1
              else if startAt = i ∧ qIdx > 0 then sc + 1 + 5 else sc + 1)
        (pos ++ [i]) := by
  simp only [scoreLoop, hidx]

theorem scoreLoop_b_rep (n : Nat) : ∀ (m k qIdx : Nat) (sc : Int) (pos : List Nat),
    1 ≤ k → k + m ≤ n + 1 → 1 ≤ qIdx →
    scoreLoop ('b' :: List.replicate n 'a') ('b' :: List.replicate n 'a')
        (List.replicate m ('a', 'a')) qIdx k sc pos =
      (sc + 7 * m, pos ++ List.range' k m) := by
  intro m
  induction m with
  | zero =>
    intro k qIdx sc pos _ _ _
    simp [scoreLoop]
  | succ m2 ih =>
    intro k qIdx sc pos hk hkm hq
    have hgetk : ('b' :: List.replicate n 'a').getD k 'a' = 'a' := by
      cases k with
      | zero => omega
      | succ k2 =>
        rw [List.getD_cons_succ]
        exact getD_replicate 'a' 'a' n k2 (by omega)
    have hgetk1 : ('b' :: List.replicate n 'a').getD (k - 1) 'a' ∉ wordPathBoundary := by
      cases k with
      | zero => omega
      | succ k2 =>
        cases k2 with
        | zero =>
          rw [show (0 + 1 - 1 : Nat) = 0 from rfl, List.getD_cons_zero]
          decide
        | succ k3 =>
          have hks : k3 + 1 + 1 - 1 = k3 + 1 := by omega
          rw [hks, List.getD_cons_succ, getD_replicate 'a' 'a' n k3 (by omega)]
          decide
    rw [show List.replicate (m2 + 1) (('a' : Char), ('a' : Char)) =
      ('a', 'a') :: List.replicate m2 ('a', 'a') from rfl]
    rw [scoreLoop_cons_some (indexOfFrom_b_rep n k hk (by omega : k ≤ n))]
    rw [if_neg (by omega : ¬ k = 0), if_neg hgetk1,
      if_neg (show ¬ isUpper (('b' :: List.replicate n 'a').getD k 'a').toNat = true by
        rw [hgetk]; decide),
      if_pos hgetk, if_pos (show k = k ∧ qIdx > 0 from ⟨rfl, by omega⟩)]
    rw [ih (k + 1) (qIdx + 1) (sc + 1 + 5 + 1) (pos ++ [k]) (by omega) (by omega) (by omega)]
    rw [List.range'_succ]
    simp only [Prod.mk.injEq]
    constructor
    · push_cast
      ring
    · simp

theorem indexOfFrom_b_rep_zero (n : Nat) (hn : 1 ≤ n) :
    indexOfFrom ('b' :: List.replicate n 'a') 'a' 0 = some 1 := by
  unfold indexOfFrom
  rw [List.drop_zero]
  have hrw : n = (n - 1) + 1 := by omega
  rw [hrw, List.replicate_succ]
  simp [indexOfAux]

theorem data_mk (l : List Char) : (String.mk l).data = l := rfl

theorem isEmpty_mk_cons (c : Char) (l : List Char) :
    ¬ (String.mk (c :: l)).isEmpty = true := by
  intro h
  have hd := (isEmpty_iff_data _).mp h
  rw [data_mk] at hd
  cases hd

theorem length_mk (l : List Char) : (String.mk l).length = l.length := rfl

theorem lowerChars_mk_rep (n : Nat) :
    lowerChars (String.mk (List.replicate n 'a')) = List.replicate n 'a' := by
  unfold lowerChars
  rw [data_mk, List.map_replicate]
  rfl

theorem lowerChars_mk_b_rep (n : Nat) :
    lowerChars (String.mk ('b' :: List.replicate n 'a')) = 'b' :: List.replicate n 'a' := by
  unfold lowerChars
  rw [data_mk, List.map_cons, List.map_replicate]
  rfl

theorem score_b_rep (n : Nat) (hn : 1 ≤ n) :
    score (String.mk ('b' :: List.replicate n 'a')) (String.mk (List.replicate n 'a')) =
      (7 * (n : Int) - 5, List.range' 1 n) := by
  obtain ⟨m, rfl⟩ : ∃ m, n = m + 1 := ⟨n - 1, by omega⟩
  unfold score
  rw [if_neg (by
    simp only [Bool.or_eq_true]
    rintro (h | h)
    · exact isEmpty_mk_cons 'b' _ h
    · have hd := (isEmpty_iff_data _).mp h
      rw [data_mk] at hd
      have hl := congrArg List.length hd
      simp at hl)]
  rw [if_neg (by
    rw [length_mk, length_mk]
    simp only [List.length_cons, List.length_replicate]
    omega)]
  simp only [scoreBody, data_mk]
  have hmap_t : List.map Char.toLower ('b' :: List.replicate (m + 1) 'a') =
      'b' :: List.replicate (m + 1) 'a' := by
    rw [List.map_cons, List.map_replicate]
    rfl
  have hmap_q : List.map Char.toLower (List.replicate (m + 1) 'a') =
      List.replicate (m + 1) 'a' := by
    rw [List.map_replicate]
    rfl
  rw [hmap_t, hmap_q, zip_replicate_self]
  have hget1 : ('b' :: List.replicate (m + 1) 'a').getD 1 'a' = 'a' := by
    rw [List.getD_cons_succ]
    exact getD_replicate 'a' 'a' (m + 1) 0 (by omega)
  rw [show List.replicate (m + 1) (('a' : Char), ('a' : Char)) =
    ('a', 'a') :: List.replicate m ('a', 'a') from rfl]
  rw [scoreLoop_cons_some (indexOfFrom_b_rep_zero (m + 1) (by omega))]
  rw [if_neg (by omega : ¬ (1 : Nat) = 0),
    if_neg (show ¬ ('b' :: List.replicate (m + 1) 'a').getD (1 - 1) 'a' ∈ wordPathBoundary by
      rw [show (1 - 1 : Nat) = 0 from rfl, List.getD_cons_zero]
      decide),
    if_neg (show ¬ isUpper (('b' :: List.replicate (m + 1) 'a').getD 1 'a').toNat = true by
      rw [hget1]; decide),
    if_pos hget1,
    if_neg (by omega : ¬ ((0 : Nat) = 1 ∧ (0 : Nat) > 0))]
  rw [scoreLoop_b_rep (m + 1) m (1 + 1) (0 + 1) (0 + 1 + 1) ([] ++ [1])
    (by omega) (by omega) (by omega)]
  split
  · rw [show List.range' 1 (m + 1) = 1 :: List.range' (1 + 1) m from List.range'_succ 1 m 1]
    simp only [Prod.mk.injEq]
    constructor
    · push_cast
      ring
    · simp
  · rename_i hc
    exfalso
    apply hc
    simp only [gt_iff_lt]
    have hm : (0 : Int) ≤ (m : Int) := Int.natCast_nonneg m
    omega


theorem scoreFile_b_rep (n : Nat) (hn : 2 ≤ n) :
    scoreFile (some (("b" : String), String.mk ('b' :: List.replicate n 'a')))
        pairAccessor (String.mk (List.replicate n 'a')) =
      { score := 7 * (n : Int) - 5,
        pathMatch := some (createMatches (List.range' 1 n)) } := by
  have hq_data : (String.mk (List.replicate n 'a')).data = List.replicate n 'a' := data_mk _
  simp only [scoreFile, pairAccessor]
  rw [if_neg (by
    simp only [Bool.or_eq_true]
    rintro (h | h)
    · exact absurd h (by decide)
    · exact isEmpty_mk_cons 'b' _ h)]
  rw [if_neg (show ¬ isEqualCI (String.mk (List.replicate n 'a'))
      (String.mk ('b' :: List.replicate n 'a')) = true by
    unfold isEqualCI
    rw [lowerChars_mk_rep, lowerChars_mk_b_rep]
    intro h
    have heq := eq_of_beq h
    have hl := congrArg List.length heq
    simp at hl)]
  have hpre : matchesPrefix (String.mk (List.replicate n 'a')) ("b" : String) = none := by
    unfold matchesPrefix
    rw [if_neg]
    rw [lowerChars_mk_rep]
    intro h
    have hp := List.isPrefixOf_iff_prefix.mp h
    have hlen := hp.length_le
    simp only [List.length_replicate] at hlen
    have : (lowerChars "b").length = 1 := by decide
    omega
  rw [hpre]
  have hscore_b : score ("b" : String) (String.mk (List.replicate n 'a')) = NO_SCORE := by
    unfold score
    rw [if_neg (by
      simp only [Bool.or_eq_true]
      rintro (h | h)
      · exact absurd h (by decide)
      · have hd := (isEmpty_iff_data _).mp h
        rw [data_mk] at hd
        have hl := congrArg List.length hd
        simp at hl
        omega)]
    rw [if_pos (by
      have h2 : (String.mk (List.replicate n 'a')).length = n := by
        rw [length_mk, List.length_replicate]
      have h1 : ("b" : String).length = 1 := rfl
      omega)]
  rw [hscore_b]
  rw [if_neg (by norm_num [NO_SCORE])]
  rw [score_b_rep n (by omega)]
  rw [if_pos (by
    show 7 * (n : Int) - 5 ≠ 0
    have h2 : (2 : Int) ≤ (n : Int) := by exact_mod_cast hn
    omega)]

/-- C6 counterexample: with query `a^9364` and path `b · a^9364`, `scoreFile`
produces a genuine tier-4 (path-only) result whose raw path score is
`7·9364 − 5 = 65543`, which is not below `BASENAME_SCORE_THRESHOLD = 65536` —
refuting the claim that every nonzero path subsequence score stays below the
threshold. -/
theorem C6_counterexample :
    (score (String.mk ('b' :: List.replicate 9364 'a'))
        (String.mk (List.replicate 9364 'a'))).1 ≠ 0 ∧
    (scoreFile (some (("b" : String), String.mk ('b' :: List.replicate 9364 'a')))
        pairAccessor (String.mk (List.replicate 9364 'a'))).pathMatch.isSome = true ∧
    (scoreFile (some (("b" : String), String.mk ('b' :: List.replicate 9364 'a')))
        pairAccessor (String.mk (List.replicate 9364 'a'))).basenameMatch = none ∧
    ¬ ((scoreFile (some (("b" : String), String.mk ('b' :: List.replicate 9364 'a')))
        pairAccessor (String.mk (List.replicate 9364 'a'))).score <
          BASENAME_SCORE_THRESHOLD) := by
  have hs := score_b_rep 9364 (by norm_num)
  have hsf := scoreFile_b_rep 9364 (by norm_num)
  refine ⟨?_, ?_, ?_, ?_⟩
  · rw [hs]
    norm_num
  · rw [hsf]
    rfl
  · rw [hsf]
  · rw [hsf]
    norm_num [BASENAME_SCORE_THRESHOLD]

/-- C6 (amended): the constants are ordered
`PATH_IDENTITY_SCORE > BASENAME_PREFIX_SCORE > BASENAME_SCORE_THRESHOLD`, every
score is bounded by `14 · len(query)`, and whenever the query is at most 4681
characters long (so that every tier-4 raw path score stays below the
threshold), every tier-3 basename-subsequence result strictly outranks every
tier-4 path-only result; for longer queries a tier-4 path score can reach the
threshold, as the counterexample shows. -/
theorem C6_tier3_outranks_tier4_bounded {T : Type} (accessor : IFileAccessor T)
    (query : String) (f g : T)
    (hq : query.length ≤ 4681)
    (hfemp : ¬ ((accessor.getBasename f).isEmpty || (accessor.getPath f).isEmpty) = true)
    (hfid : ¬ isEqualCI query (accessor.getPath f) = true)
    (hfpre : matchesPrefix query (accessor.getBasename f) = none)
    (hfs : (score (accessor.getBasename f) query).1 ≠ 0)
    (hgemp : ¬ ((accessor.getBasename g).isEmpty || (accessor.getPath g).isEmpty) = true)
    (hgid : ¬ isEqualCI query (accessor.getPath g) = true)
    (hgpre : matchesPrefix query (accessor.getBasename g) = none)
    (hgs : (score (accessor.getBasename g) query).1 = 0)
    (hgps : (score (accessor.getPath g) query).1 ≠ 0) :
    (scoreFile (some g) accessor query).score < (scoreFile (some f) accessor query).score ∧
    BASENAME_PREFIX_SCORE < PATH_IDENTITY_SCORE ∧
    BASENAME_SCORE_THRESHOLD < BASENAME_PREFIX_SCORE ∧
    (score (accessor.getPath g) query).1 < BASENAME_SCORE_THRESHOLD := by
  have hf_eq : (scoreFile (some f) accessor query).score =
      (score (accessor.getBasename f) query).1 + BASENAME_SCORE_THRESHOLD := by
    simp only [scoreFile]
    rw [if_neg hfemp, if_neg hfid, hfpre, if_pos hfs]
  have hg_eq : (scoreFile (some g) accessor query).score =
      (score (accessor.getPath g) query).1 := by
    simp only [scoreFile]
    rw [if_neg hgemp, if_neg hgid, hgpre, if_neg (by rw [hgs]; norm_num), if_pos hgps]
  have hb1 := score_nonneg (accessor.getBasename f) query
  have hb2 := score_le_14len (accessor.getPath g) query
  have hcast : ((query.length : Int)) ≤ 4681 := by exact_mod_cast hq
  have hthr : (score (accessor.getPath g) query).1 < BASENAME_SCORE_THRESHOLD := by
    have : (14 : Int) * (query.length : Int) ≤ 14 * 4681 := by omega
    norm_num [BASENAME_SCORE_THRESHOLD]
    omega
  refine ⟨?_, by norm_num [BASENAME_PREFIX_SCORE, PATH_IDENTITY_SCORE],
    by norm_num [BASENAME_PREFIX_SCORE, BASENAME_SCORE_THRESHOLD], hthr⟩
  rw [hf_eq, hg_eq]
  omega

/-- Witness for C6 (amended) at concrete small inputs: query `of`, a file whose
basename matches as a subsequence (tier 3), and a file that only matches on its
path (tier 4). -/
theorem C6_tier3_outranks_tier4_bounded_witness :
    (scoreFile (some (("b.txt", "/of/b.txt") : String × String)) pairAccessor "of").score <
      (scoreFile (some (("someFile.txt", "/xyz/someFile.txt") : String × String))
        pairAccessor "of").score ∧
    BASENAME_PREFIX_SCORE < PATH_IDENTITY_SCORE ∧
    BASENAME_SCORE_THRESHOLD < BASENAME_PREFIX_SCORE ∧
    (score (pairAccessor.getPath (("b.txt", "/of/b.txt") : String × String)) "of").1 <
      BASENAME_SCORE_THRESHOLD :=
  C6_tier3_outranks_tier4_bounded pairAccessor "of"
    (("someFile.txt", "/xyz/someFile.txt") : String × String)
    (("b.txt", "/of/b.txt") : String × String)
    (by decide) (by decide) (by decide) (by decide) (by decide)
    (by decide) (by decide) (by decide) (by decide) (by decide)

end Scorer
